import Mathlib

set_option maxRecDepth 100000

/-!
Verification development for the Cosmos validator health monitor
(`validator_health_monitor.py`).

The Python source is shallowly embedded: pure functions become Lean
functions, machine integers become `Nat`/`Int` with explicit reductions
where overflow matters, fallible code returns `Option`/`Except`, and the
network is modelled as an oracle mapping attempt numbers to outcomes.
Library functions the source calls (`base64.b64decode`, `hashlib.sha256`,
`bech32.convertbits`, `bech32.bech32_encode`) are embedded from their
reference semantics, as noted on each definition.
-/

/-- The two exception kinds the embedded code can signal: Python's builtin
`ValueError` and the script's `ApiClientError` (a `RuntimeError` subclass).
Keeping them as constructors of one type records that each raise site
produces exactly one failure kind. -/
inductive PyExc where
  | valueError (msg : String)
  | apiClientError (msg : String)
deriving DecidableEq, Repr

/-! ## Base64 (modelled library function)

`base64.b64decode(s, validate=True)` as implemented by CPython 3.11:
every character must be in the base64 alphabet or `=`; no data character
may follow a padding character; with `n` data characters, `n % 4 = 1` is
rejected; `n % 4 = 2` requires exactly two `=`, `n % 4 = 3` exactly one,
`n % 4 = 0` with `n > 0` allows any number of trailing `=`, and the empty
string allows none. Non-ASCII-relevant lax behaviours (bytes input,
whitespace with validate=False) do not arise at the call site. -/

/-- Value of a base64 alphabet character, `none` for anything else
(including `=`). -/
def b64CharVal (c : Char) : Option Nat :=
  if 'A' ≤ c ∧ c ≤ 'Z' then some (c.toNat - 65)
  else if 'a' ≤ c ∧ c ≤ 'z' then some (c.toNat - 97 + 26)
  else if '0' ≤ c ∧ c ≤ '9' then some (c.toNat - 48 + 52)
  else if c = '+' then some 62
  else if c = '/' then some 63
  else none

/-- Decode a run of 6-bit values into bytes: each group of four 6-bit
values yields three bytes, a trailing group of three yields two, a
trailing group of two yields one (low bits discarded, as CPython does
without strict checking). -/
def b64Quads : List Nat → List Nat
  | a :: b :: c :: d :: rest =>
    let x := a * 262144 + b * 4096 + c * 64 + d
    (x >>> 16) :: ((x >>> 8) % 256) :: (x % 256) :: b64Quads rest
  | [a, b, c] =>
    let x := a * 4096 + b * 64 + c
    [x >>> 10, (x >>> 2) % 256]
  | [a, b] =>
    let x := a * 64 + b
    [x >>> 4]
  | [_] => []
  | [] => []

/-- Modelled library function: `base64.b64decode(s, validate=True)`
(CPython 3.11). Returns the decoded bytes, or `none` when CPython raises
`binascii.Error` (a `ValueError` subclass). -/
def b64decode (s : String) : Option (List Nat) :=
  let cs := s.data
  let dataChars := cs.takeWhile (· ≠ '=')
  let padChars := cs.dropWhile (· ≠ '=')
  if ¬ padChars.all (· = '=') then none
  else if ¬ dataChars.all (fun c => (b64CharVal c).isSome) then none
  else
    let vals := dataChars.filterMap b64CharVal
    let n := vals.length
    let p := padChars.length
    if n % 4 = 1 then none
    else if n = 0 then (if p = 0 then some [] else none)
    else if n % 4 = 2 then (if p = 2 then some (b64Quads vals) else none)
    else if n % 4 = 3 then (if p = 1 then some (b64Quads vals) else none)
    else some (b64Quads vals)

/-! ## SHA-256 (modelled library function)

`hashlib.sha256(data).digest()`, embedded from FIPS 180-4. Words are
`Nat` reduced modulo `2 ^ 32` wherever 32-bit overflow matters. -/

/-- Reduce to a 32-bit word. -/
def w32 (n : Nat) : Nat := n % 4294967296

/-- 32-bit right rotation. -/
def rotr32 (n x : Nat) : Nat := w32 ((x >>> n) ||| (x <<< (32 - n)))

/-- The 64 SHA-256 round constants. -/
def sha256K : List Nat :=
  [1116352408, 1899447441, 3049323471, 3921009573, 961987163,
   1508970993, 2453635748, 2870763221, 3624381080, 310598401,
   607225278, 1426881987, 1925078388, 2162078206, 2614888103,
   3248222580, 3835390401, 4022224774, 264347078, 604807628,
   770255983, 1249150122, 1555081692, 1996064986, 2554220882,
   2821834349, 2952996808, 3210313671, 3336571891, 3584528711,
   113926993, 338241895, 666307205, 773529912, 1294757372,
   1396182291, 1695183700, 1986661051, 2177026350, 2456956037,
   2730485921, 2820302411, 3259730800, 3345764771, 3516065817,
   3600352804, 4094571909, 275423344, 430227734, 506948616,
   659060556, 883997877, 958139571, 1322822218, 1537002063,
   1747873779, 1955562222, 2024104815, 2227730452, 2361852424,
   2428436474, 2756734187, 3204031479, 3329325298]

/-- SHA-256 working state: the eight 32-bit hash registers. -/
structure Sha256State where
  a : Nat
  b : Nat
  c : Nat
  d : Nat
  e : Nat
  f : Nat
  g : Nat
  h : Nat
deriving DecidableEq, Repr

/-- Initial hash value of SHA-256. -/
def sha256H0 : Sha256State :=
  ⟨1779033703, 3144134277, 1013904242, 2773480762,
   1359893119, 2600822924, 528734635, 1541459225⟩

/-- FIPS 180-4 padding: append `0x80`, zero bytes until the length is
56 mod 64, then the bit length as eight big-endian bytes. -/
def sha256Pad (msg : List Nat) : List Nat :=
  let L := msg.length
  let zeros := (119 - L % 64) % 64
  msg ++ [0x80] ++ List.replicate zeros 0 ++
    (List.range 8).map (fun i => ((8 * L) >>> (8 * (7 - i))) % 256)

/-- Group a byte list into 32-bit big-endian words. -/
def bytesToWords : List Nat → List Nat
  | b0 :: b1 :: b2 :: b3 :: rest =>
    (b0 * 16777216 + b1 * 65536 + b2 * 256 + b3) :: bytesToWords rest
  | _ => []

/-- Group a word list into blocks of sixteen words (any trailing words
short of a block are dropped; padding guarantees there are none). -/
def toBlocks : List Nat → List (List Nat)
  | w0 :: w1 :: w2 :: w3 :: w4 :: w5 :: w6 :: w7 ::
      w8 :: w9 :: w10 :: w11 :: w12 :: w13 :: w14 :: w15 :: rest =>
    [w0, w1, w2, w3, w4, w5, w6, w7, w8, w9, w10, w11, w12, w13, w14, w15] ::
      toBlocks rest
  | _ => []

/-- Message-schedule extension step: append word `W[t]` for the next `t`. -/
def sha256Extend (w : List Nat) : List Nat :=
  let w2 := w.getD (w.length - 2) 0
  let w7 := w.getD (w.length - 7) 0
  let w15 := w.getD (w.length - 15) 0
  let w16 := w.getD (w.length - 16) 0
  let s0 := (rotr32 7 w15) ^^^ (rotr32 18 w15) ^^^ (w15 >>> 3)
  let s1 := (rotr32 17 w2) ^^^ (rotr32 19 w2) ^^^ (w2 >>> 10)
  w ++ [w32 (w16 + s0 + w7 + s1)]

/-- The 64-entry message schedule of a block. -/
def sha256Schedule (block : List Nat) : List Nat :=
  (List.range 48).foldl (fun w _ => sha256Extend w) block

/-- One SHA-256 round, consuming one `(K, W)` pair. -/
def sha256Round (s : Sha256State) (kw : Nat × Nat) : Sha256State :=
  let S1 := (rotr32 6 s.e) ^^^ (rotr32 11 s.e) ^^^ (rotr32 25 s.e)
  let ch := (s.e &&& s.f) ^^^ ((0xffffffff ^^^ s.e) &&& s.g)
  let temp1 := w32 (s.h + S1 + ch + kw.1 + kw.2)
  let S0 := (rotr32 2 s.a) ^^^ (rotr32 13 s.a) ^^^ (rotr32 22 s.a)
  let maj := (s.a &&& s.b) ^^^ (s.a &&& s.c) ^^^ (s.b &&& s.c)
  let temp2 := w32 (S0 + maj)
  ⟨w32 (temp1 + temp2), s.a, s.b, s.c, w32 (s.d + temp1), s.e, s.f, s.g⟩

/-- Compress one 16-word block into the running hash state. -/
def sha256Compress (st : Sha256State) (block : List Nat) : Sha256State :=
  let ks := sha256K.zip (sha256Schedule block)
  let t := ks.foldl sha256Round st
  ⟨w32 (st.a + t.a), w32 (st.b + t.b), w32 (st.c + t.c), w32 (st.d + t.d),
   w32 (st.e + t.e), w32 (st.f + t.f), w32 (st.g + t.g), w32 (st.h + t.h)⟩

/-- A 32-bit word as four big-endian bytes. -/
def wordBytes (w : Nat) : List Nat :=
  [(w >>> 24) % 256, (w >>> 16) % 256, (w >>> 8) % 256, w % 256]

/-- The final hash state rendered as 32 big-endian bytes. -/
def stateBytes (st : Sha256State) : List Nat :=
  wordBytes st.a ++ wordBytes st.b ++ wordBytes st.c ++ wordBytes st.d ++
    wordBytes st.e ++ wordBytes st.f ++ wordBytes st.g ++ wordBytes st.h

/-- Modelled library function: `hashlib.sha256(msg).digest()` — the
32-byte SHA-256 digest of a byte string. -/
def sha256 (msg : List Nat) : List Nat :=
  stateBytes ((toBlocks (bytesToWords (sha256Pad msg))).foldl sha256Compress sha256H0)

/-! ## bech32 (modelled library functions)

`bech32.convertbits` and `bech32.bech32_encode` from the `bech32` PyPI
package (the BIP-173 reference implementation). `convertbits` is embedded
with an explicit `tobits = 0` guard so its inner `while` loop is visibly
terminating; the source is only ever called with `tobits = 5`. Python's
`value < 0` check is vacuous over `Nat`. The optional `pad` argument
(default `True` in the library) is passed explicitly. -/

/-- The bech32 digit alphabet. -/
def bech32Charset : String := "qpzry9x8gf2tvdw0s3jn54khce6mua7l"

/-- The bech32 checksum polynomial accumulator. -/
def bech32_polymod (values : List Nat) : Nat :=
  let generator := [0x3b6a57b2, 0x26508e6d, 0x1ea119fa, 0x3d4233dd, 0x2a1462b3]
  values.foldl
    (fun chk value =>
      let top := chk >>> 25
      let chk1 := (((chk &&& 0x1ffffff) <<< 5) ^^^ value)
      (List.range 5).foldl
        (fun c i => if (top >>> i) &&& 1 ≠ 0 then c ^^^ generator.getD i 0 else c)
        chk1)
    1

/-- Expand the human-readable part for checksum computation. -/
def bech32_hrp_expand (hrp : String) : List Nat :=
  hrp.data.map (fun c => c.toNat >>> 5) ++ [0] ++ hrp.data.map (fun c => c.toNat &&& 31)

/-- Compute the six 5-bit checksum values. -/
def bech32_create_checksum (hrp : String) (data : List Nat) : List Nat :=
  let values := bech32_hrp_expand hrp ++ data
  let polymod := bech32_polymod (values ++ [0, 0, 0, 0, 0, 0]) ^^^ 1
  (List.range 6).map (fun i => (polymod >>> (5 * (5 - i))) &&& 31)

/-- Modelled library function: `bech32.bech32_encode(hrp, data)` — the
human-readable part, the separator `1`, then the data and checksum as
charset digits. (`CHARSET[d]` is total here via a default, matching the
library whenever every value is below 32, as at the call site.) -/
def bech32_encode (hrp : String) (data : List Nat) : String :=
  let combined := data ++ bech32_create_checksum hrp data
  hrp ++ "1" ++ String.mk (combined.map (fun d => bech32Charset.data.getD d ' '))

/-- The body of the inner `while bits >= tobits` loop of `convertbits`,
with an explicit iteration budget: each pass removes `tobits ≥ 1` bits,
so `bits` iterations always suffice. Groups are emitted top-first; the
final pending bit count is returned alongside. -/
def convertbitsEmitGo (tobits maxv acc : Nat) : Nat → Nat → List Nat × Nat
  | 0, bits => ([], bits)
  | fuel + 1, bits =>
    if 0 < tobits ∧ tobits ≤ bits then
      let bits1 := bits - tobits
      let next := convertbitsEmitGo tobits maxv acc fuel bits1
      (((acc >>> bits1) &&& maxv) :: next.1, next.2)
    else ([], bits)

/-- The inner `while bits >= tobits` loop of `convertbits`. -/
def convertbitsEmit (tobits maxv acc : Nat) (bits : Nat) : List Nat × Nat :=
  convertbitsEmitGo tobits maxv acc bits bits

/-- The main `for value in data` loop of `convertbits`: threads the
accumulator and pending bit count, collecting emitted groups; returns the
final accumulator and bit count alongside. -/
def convertbitsLoop (frombits tobits maxv max_acc : Nat) (acc bits : Nat) :
    List Nat → Option (List Nat × Nat × Nat)
  | [] => some ([], acc, bits)
  | value :: rest =>
    if value >>> frombits ≠ 0 then none
    else
      let acc1 := ((acc <<< frombits) ||| value) &&& max_acc
      let bits1 := bits + frombits
      let emitted := convertbitsEmit tobits maxv acc1 bits1
      match convertbitsLoop frombits tobits maxv max_acc acc1 emitted.2 rest with
      | none => none
      | some (ret, accF, bitsF) => some (emitted.1 ++ ret, accF, bitsF)

/-- Modelled library function: `bech32.convertbits(data, frombits, tobits,
pad)` — general power-of-two base conversion. -/
def convertbits (data : List Nat) (frombits tobits : Nat) (pad : Bool) :
    Option (List Nat) :=
  let maxv := (1 <<< tobits) - 1
  let max_acc := (1 <<< (frombits + tobits - 1)) - 1
  match convertbitsLoop frombits tobits maxv max_acc 0 0 data with
  | none => none
  | some (ret, acc, bits) =>
    if pad then
      if bits ≠ 0 then some (ret ++ [(acc <<< (tobits - bits)) &&& maxv]) else some ret
    else if bits ≥ frombits ∨ ((acc <<< (tobits - bits)) &&& maxv) ≠ 0 then none
    else some ret

/-! ## Consensus address derivation (`convert_pubkey_to_cons_address`) -/

/-- Embedding of `convert_pubkey_to_cons_address` (lines 136-161):
base64-decode the key strictly, SHA-256 it, keep the first 20 digest
bytes, convert them to 5-bit groups, and bech32-encode with prefix
`cosmosvalcons`. Each `raise ValueError` site becomes an `Except.error`
with that site's message. -/
def convert_pubkey_to_cons_address (pubkey_b64 : String) : Except PyExc String :=
  match b64decode pubkey_b64 with
  | none => .error (.valueError "Invalid base64 consensus public key")
  | some pubkey_bytes =>
    let hash_digest := sha256 pubkey_bytes
    let address_bytes := hash_digest.take 20
    match convertbits address_bytes 8 5 true with
    | none => .error (.valueError "Failed to convert consensus public key to bech32 format")
    | some converted => .ok (bech32_encode "cosmosvalcons" converted)

/-! ## Resilient fetcher (`get_api_data`)

The network is environmental: it is modelled as an oracle mapping the
attempt number (1-based) to that attempt's outcome. An attempt either
raises `requests.RequestException` (transport, timeout or non-2xx status
via `raise_for_status`) or yields a response whose `.json()` call is an
invalid-JSON failure, a JSON object carrying a payload of type `δ`, or a
parseable non-object value. `max_retries` is a `Nat`: the CLI guarantees
it is at least 1, and for `0` the model, like the source, still performs
the first attempt and then raises. `retry_backoff` is modelled as `ℚ`. -/

/-- Modelled library function: `endpoint.startswith("/")` — whether the
first character is a slash (checked on the character data, since
`String.startsWith` is byte-position based and does not reduce). -/
def startsWithSlash (s : String) : Bool :=
  match s.data with
  | c :: _ => c = '/'
  | [] => false

/-- The shape of `response.json()` for a completed HTTP response. -/
inductive JsonBody (δ : Type) where
  | invalid
  | obj (d : δ)
  | notObj (tyName : String)

/-- Outcome of one GET attempt. -/
inductive AttemptOutcome (δ : Type) where
  | exn
  | response (body : JsonBody δ)

/-- Trace of the observable effects of `get_api_data`: how many GET
attempts ran and the sleep durations (in seconds) in order. -/
structure FetchTrace where
  attemptsMade : Nat
  sleeps : List ℚ
deriving Repr

/-- The `while True` retry loop of `get_api_data` (lines 101-121),
starting at a given attempt number: on success break with the body; on
exception raise `ApiClientError` once `attempt >= max_retries`, otherwise
sleep `retry_backoff ** (attempt - 1)` and retry. -/
def requestLoop {δ : Type} (oracle : Nat → AttemptOutcome δ) (max_retries : Nat)
    (retry_backoff : ℚ) (attempt : Nat) (url : String) :
    Except PyExc (JsonBody δ) × FetchTrace :=
  match oracle attempt with
  | .response body => (.ok body, ⟨attempt, []⟩)
  | .exn =>
    if _h : attempt ≥ max_retries then
      (.error (.apiClientError ("Failed to fetch data from " ++ url)), ⟨attempt, []⟩)
    else
      let sleep_for := retry_backoff ^ (attempt - 1)
      let next := requestLoop oracle max_retries retry_backoff (attempt + 1) url
      (next.1, ⟨next.2.attemptsMade, sleep_for :: next.2.sleeps⟩)
termination_by max_retries - attempt
decreasing_by omega

/-- Embedding of `get_api_data` (lines 77-133): reject endpoints not
starting with `/` (a `ValueError`, before any attempt), run the retry
loop, then require the body to decode as a JSON object — any other shape
is an `ApiClientError`. -/
def get_api_data {δ : Type} (oracle : Nat → AttemptOutcome δ) (endpoint : String)
    (base_url : String) (max_retries : Nat) (retry_backoff : ℚ) :
    Except PyExc δ × FetchTrace :=
  if ¬ startsWithSlash endpoint then
    (.error (.valueError "Endpoint must start with '/'."), ⟨0, []⟩)
  else
    let url := base_url ++ endpoint
    match requestLoop oracle max_retries retry_backoff 1 url with
    | (.error e, t) => (.error e, t)
    | (.ok body, t) =>
      match body with
      | .invalid => (.error (.apiClientError ("Invalid JSON response from " ++ url)), t)
      | .notObj tyName =>
        (.error (.apiClientError ("Unexpected response type from " ++ url ++ ": " ++ tyName)), t)
      | .obj d => (.ok d, t)

/-! ## Data model

The upstream payload fields the source reads are modelled as optional
strings: a `none` stands for an absent field (or one of non-string type,
which every `isinstance` guard in the source treats the same way). -/

/-- Run configuration (`AppConfig`, lines 41-50). `missed_blocks_threshold`
and `max_results` are Python ints, kept as `Int`; the retry backoff is
kept as `ℚ`. -/
structure AppConfig where
  base_url : String
  missed_blocks_threshold : Int
  max_retries : Nat
  retry_backoff : ℚ
  hide_healthy : Bool
  max_results : Int
  html_output : Option String
  html_title : String
deriving Repr

/-- One entry of the `validators` payload, restricted to the fields the
source reads. `description_moniker` is `validator["description"]["moniker"]`
when `description` is a dict holding a string moniker; `consensus_pubkey_key`
is `validator["consensus_pubkey"]["key"]` when it is a string (the
`isinstance(pubkey_b64, str)` guard); `commission_rate_raw` is
`validator["commission"]["commission_rates"]["rate"]` as the string the
API serves. `jailed` is the truthiness of the `jailed` field. -/
structure RawValidator where
  description_moniker : Option String
  moniker : Option String
  operator_address : Option String
  consensus_pubkey_key : Option String
  jailed : Bool
  commission_rate_raw : Option String
deriving Repr

/-- One entry of the signing-infos payload: the raw
`missed_blocks_counter` string when present. -/
structure SigningInfo where
  missed_blocks_counter : Option String
deriving Repr

/-- The signing-info map, keyed by consensus address (a Python dict,
modelled as an association list with unique keys by construction). -/
def SigningInfoMap : Type := List (String × SigningInfo)

/-- `dict.get`: first value bound to the key, if any. -/
def dictGet (m : SigningInfoMap) (key : String) : Option SigningInfo :=
  (m.find? (fun p => p.1 == key)).map (·.2)

/-- A merged validator record (the dict built at lines 259-268). -/
structure ValidatorRecord where
  moniker : String
  operator_address : Option String
  consensus_address : String
  jailed : Bool
  missed_blocks : Int
  commission_rate : Option ℚ
deriving DecidableEq, Repr

/-- Python string truthiness: a string is falsy exactly when empty; an
absent value (`None`) is falsy. -/
def pyTruthy : Option String → Bool
  | none => false
  | some s => s ≠ ""

/-- `a or b` on optional strings, as Python evaluates it. -/
def pyOr (a b : Option String) : Option String :=
  if pyTruthy a then a else b

/-- Modelled library function: `int(s)` on a string — an optional sign
followed by at least one digit (whitespace and underscore separators,
which the API never serves, are not modelled). `none` when Python raises
`ValueError`. -/
def pyInt (s : String) : Option Int :=
  let core : List Char → Option Nat := fun ds =>
    if ds ≠ [] ∧ ds.all Char.isDigit then
      some (ds.foldl (fun n c => n * 10 + (c.toNat - 48)) 0)
    else none
  match s.data with
  | '-' :: rest => (core rest).map (fun n => -(n : Int))
  | '+' :: rest => (core rest).map (fun n => (n : Int))
  | ds => (core ds).map (fun n => (n : Int))

/-- Modelled library function: `float(s)` on a decimal string — optional
sign, digits with an optional fractional part (scientific notation,
`inf` and `nan`, which the API never serves for commission rates, are not
modelled; the result is kept as an exact rational). `none` when Python
raises `ValueError`. -/
def pyFloat (s : String) : Option ℚ :=
  let digitsVal : List Char → Nat := fun ds => ds.foldl (fun n c => n * 10 + (c.toNat - 48)) 0
  let core := fun (ds : List Char) =>
    let intPart := ds.takeWhile Char.isDigit
    let rest := ds.dropWhile Char.isDigit
    match rest with
    | [] =>
      if intPart ≠ [] then some ((digitsVal intPart : ℤ) : ℚ) else none
    | '.' :: frac =>
      if (intPart ≠ [] ∨ frac ≠ []) ∧ frac.all Char.isDigit then
        some (((digitsVal intPart : ℤ) : ℚ) +
          ((digitsVal frac : ℤ) : ℚ) / ((10 : ℚ) ^ frac.length))
      else none
    | _ => none
  match s.data with
  | '-' :: rest => (core rest).map (fun q => -q)
  | '+' :: rest => (core rest).map (fun q => q)
  | ds => (core ds).map (fun q => q)

/-! ## Record merger (`collect_validator_records`) -/

/-- Moniker resolution (lines 216-221): nested `description.moniker`,
then the flat `moniker` field, then `"Unknown"` — chained with Python
`or`, so empty strings fall through. -/
def resolveMoniker (validator : RawValidator) : String :=
  (pyOr (pyOr validator.description_moniker validator.moniker) (some "Unknown")).getD "Unknown"

/-- The raw missed-blocks counter for a consensus address:
`signing_info_map.get(consensus_address, {})` followed by
`.get("missed_blocks_counter", "0")` (lines 241-242). -/
def missedBlocksRaw (signing_info_map : SigningInfoMap) (consensus_address : String) : String :=
  match dictGet signing_info_map consensus_address with
  | none => "0"
  | some si => si.missed_blocks_counter.getD "0"

/-- The per-validator body of `collect_validator_records` (lines 215-268):
`none` when the loop `continue`s (no usable public key, or address
derivation failed), otherwise the merged record. A bad missed-blocks
counter defaults to `0`; a bad or absent commission rate defaults to
`none` (Python `None`). -/
def recordOf (signing_info_map : SigningInfoMap) (validator : RawValidator) :
    Option ValidatorRecord :=
  let moniker := resolveMoniker validator
  match validator.consensus_pubkey_key with
  | none => none
  | some pubkey_b64 =>
    match convert_pubkey_to_cons_address pubkey_b64 with
    | .error _ => none
    | .ok consensus_address =>
      let missed_blocks := (pyInt (missedBlocksRaw signing_info_map consensus_address)).getD 0
      let commission_rate :=
        match validator.commission_rate_raw with
        | none => none
        | some raw => pyFloat raw
      some
        { moniker := moniker
          operator_address := validator.operator_address
          consensus_address := consensus_address
          jailed := validator.jailed
          missed_blocks := missed_blocks
          commission_rate := commission_rate }

/-- Embedding of `collect_validator_records` (lines 208-270): the
`for validator in validators` loop, appending one record per validator
and `continue`-ing past per-item failures. -/
def collect_validator_records (signing_info_map : SigningInfoMap) :
    List RawValidator → List ValidatorRecord
  | [] => []
  | validator :: rest =>
    match recordOf signing_info_map validator with
    | none => collect_validator_records signing_info_map rest
    | some record => record :: collect_validator_records signing_info_map rest

/-! ## Health classification (`determine_health_status`) -/

/-- The status/reason pair returned by `determine_health_status`. -/
structure HealthStatus where
  status : String
  reason : String
deriving DecidableEq, Repr

/-- Embedding of `determine_health_status` (lines 273-284). -/
def determine_health_status (jailed : Bool) (missed_blocks : Int) (config : AppConfig) :
    HealthStatus :=
  if jailed then ⟨"JAILED", "Validator jailed"⟩
  else if missed_blocks > config.missed_blocks_threshold then ⟨"AT_RISK", "High missed blocks"⟩
  else ⟨"HEALTHY", "All checks passed"⟩

/-! ## Report assembly (`prepare_report_data`) -/

/-- `STATUS_ICONS` (the emoji table, lines 29-33). -/
def STATUS_ICONS : List (String × String) :=
  [("JAILED", "❌"), ("AT_RISK", "⚠️"), ("HEALTHY", "✅")]

/-- `STATUS_ICONS_ASCII` (lines 34-38). -/
def STATUS_ICONS_ASCII : List (String × String) :=
  [("JAILED", "X"), ("AT_RISK", "!"), ("HEALTHY", "+")]

/-- `dict.get(key, default)` over an icon table. -/
def iconGet (table : List (String × String)) (key : String) (default : String) : String :=
  ((table.find? (fun p => p.1 == key)).map (·.2)).getD default

/-- One presentation row (`ReportRow`, lines 53-61). -/
structure ReportRow where
  status : String
  icon_text : String
  icon_html : String
  moniker : String
  missed_blocks : Int
  commission_display : String
  reason : String
deriving DecidableEq, Repr

/-- The assembled report (`ReportData`, lines 64-70). `status_counts` is
the `defaultdict(int)` converted with `dict(...)`: an association list
whose keys appear in first-increment order. -/
structure ReportData where
  rows : List ReportRow
  status_counts : List (String × Nat)
  total_records : Nat
  total_shown : Nat
  filtered_out_healthy : Bool
deriving Repr

/-- `status_counts[status] += 1` on a `defaultdict(int)`: bump the first
binding of the key, appending a fresh binding of the key to `1` when the
key is new (dict keys are unique, so at most one binding exists). -/
def incrCount (counts : List (String × Nat)) (status : String) : List (String × Nat) :=
  match counts with
  | [] => [(status, 1)]
  | (k, v) :: rest =>
    if k == status then (k, v + 1) :: rest else (k, v) :: incrCount rest status

/-- `status_counts.get(label, 0)`. -/
def countGet (counts : List (String × Nat)) (label : String) : Nat :=
  ((counts.find? (fun p => p.1 == label)).map (·.2)).getD 0

/-- `sum(status_counts.values())`. -/
def sumValues (counts : List (String × Nat)) : Nat :=
  (counts.map (·.2)).sum

/-- The severity table `status_order` with its `.get(status, 99)` default
(lines 321, 330). -/
def statusOrder (status : String) : Nat :=
  if status = "JAILED" then 0
  else if status = "AT_RISK" then 1
  else if status = "HEALTHY" then 2
  else 99

/-- `sort_key` (lines 323-332): severity rank, then the moniker
lowercased with the builtin `str.lower`. That builtin performs the full
Unicode case mapping of the interpreter's Unicode tables (including
context rules such as final sigma); like `resolve_status_icon` below it
is taken from the function's environment, so it enters the embedding as
the explicit argument `lower` and every theorem about the report
quantifies over it — each holds in particular at the interpreter's
actual mapping. -/
def sort_key (lower : String → String) (config : AppConfig)
    (entry : ValidatorRecord) : Nat × String :=
  (statusOrder (determine_health_status entry.jailed entry.missed_blocks config).status,
   lower entry.moniker)

/-- Lexicographic order on sort keys, exactly the `<=` Python's stable
`sorted` realises on the `(severity, lowered moniker)` tuples. -/
def keyLE (a b : Nat × String) : Bool :=
  a.1 < b.1 ∨ (a.1 = b.1 ∧ ¬ b.2 < a.2)

/-- `f"{commission_rate * 100:.2f}%"` (lines 349-351), on the exact
rational the parse produced: round half-to-even at two decimals and
render with two fractional digits (binary-float rounding noise is not
modelled). -/
def formatPercent (commission_rate : ℚ) : String :=
  let scaled := commission_rate * 100 * 100
  let fl : ℤ := ⌊scaled⌋
  let rem := scaled - (fl : ℚ)
  let n : ℤ :=
    if rem < 1/2 then fl
    else if 1/2 < rem then fl + 1
    else if fl % 2 = 0 then fl else fl + 1
  let m := n.natAbs
  let sign := if n < 0 then "-" else ""
  let frac := m % 100
  sign ++ toString (m / 100) ++ "." ++ (if frac < 10 then "0" else "") ++ toString frac ++ "%"

/-- Row construction (lines 348-367). Which emoji the text renderer may
print depends on the terminal encoding, an environmental capability; it
enters as the `resolveIcon` argument standing for `resolve_status_icon`. -/
def mkRow (config : AppConfig) (resolveIcon : String → String) (record : ValidatorRecord) :
    ReportRow :=
  let health := determine_health_status record.jailed record.missed_blocks config
  let status := health.status
  let commission_display :=
    match record.commission_rate with
    | some commission_rate => formatPercent commission_rate
    | none => "N/A"
  { status := status
    icon_text := resolveIcon status
    icon_html := iconGet STATUS_ICONS status (iconGet STATUS_ICONS_ASCII status "")
    moniker := record.moniker
    missed_blocks := record.missed_blocks
    commission_display := commission_display
    reason := health.reason }

/-- The `for record in sorted(records, key=sort_key)` loop of
`prepare_report_data` (lines 337-371), threading the row list and the
status counts: skip hidden healthy rows, append a row and bump its
status count, and `break` once `max_results` (when nonzero) rows have
been emitted. -/
def buildRows (config : AppConfig) (resolveIcon : String → String) :
    List ValidatorRecord → List ReportRow → List (String × Nat) →
    List ReportRow × List (String × Nat)
  | [], rows, status_counts => (rows, status_counts)
  | record :: rest, rows, status_counts =>
    let health := determine_health_status record.jailed record.missed_blocks config
    let status := health.status
    if config.hide_healthy ∧ status = "HEALTHY" then
      buildRows config resolveIcon rest rows status_counts
    else
      let rows1 := rows ++ [mkRow config resolveIcon record]
      let status_counts1 := incrCount status_counts status
      if config.max_results ≠ 0 ∧ (rows1.length : Int) ≥ config.max_results then
        (rows1, status_counts1)
      else
        buildRows config resolveIcon rest rows1 status_counts1

/-- Embedding of `prepare_report_data` (lines 312-383). Python's
`sorted` is a stable sort on the key; it is modelled with the (stable)
`List.mergeSort` under the key order `keyLE`. The builtin `str.lower`
used inside `sort_key` enters as the argument `lower`. -/
def prepare_report_data (records : List ValidatorRecord) (config : AppConfig)
    (resolveIcon : String → String) (lower : String → String) : ReportData :=
  let total_records := records.length
  let sortedRecords :=
    records.mergeSort (fun a b => keyLE (sort_key lower config a) (sort_key lower config b))
  let built := buildRows config resolveIcon sortedRecords [] []
  let rows := built.1
  let filtered_out_healthy := config.hide_healthy ∧ total_records > 0 ∧ rows.length = 0
  { rows := rows
    status_counts := built.2
    total_records := total_records
    total_shown := rows.length
    filtered_out_healthy := decide filtered_out_healthy }

/-! ## Spec-side definitions

For the refinement claim about address derivation, the spec's wording —
"re-encode those 20 bytes as 5-bit groups, most-significant-bit-first,
with the standard padding rule" — is written down independently of the
library's `convertbits` loop, to be compared with it. -/

/-- Big-endian value of a byte sequence. -/
def beBytesVal (bs : List Nat) : Nat := bs.foldl (fun n b => n * 256 + b) 0

/-- The `g` consecutive 5-bit groups of a number, most significant
first. -/
def base32BE : Nat → Nat → List Nat
  | 0, _ => []
  | g + 1, N => ((N >>> (5 * g)) &&& 31) :: base32BE g N

/-- Spec-side 8-bit to 5-bit conversion: view the bytes as a bit string
(most significant bit first), zero-pad on the right to a multiple of
five bits, and read off consecutive 5-bit groups from the most
significant end. -/
def fiveBitGroupsSpec (bs : List Nat) : List Nat :=
  base32BE ((8 * bs.length + 4) / 5) (beBytesVal bs <<< ((5 - (8 * bs.length) % 5) % 5))

/-! ## Characterisations of the report loop

Closed forms for what the `prepare_report_data` loop computes: the fully
sorted record list, the rows surviving the hide-healthy filter, the
`max_results` cap, and the counts recomputed from a row list. -/

/-- A record survives the hide-healthy filter. -/
def keepRecord (config : AppConfig) (r : ValidatorRecord) : Bool :=
  ¬ (config.hide_healthy ∧
    (determine_health_status r.jailed r.missed_blocks config).status = "HEALTHY")

/-- The stable sort `prepare_report_data` applies to the records. -/
def sortedRecords (lower : String → String) (config : AppConfig)
    (records : List ValidatorRecord) : List ValidatorRecord :=
  records.mergeSort (fun a b => keyLE (sort_key lower config a) (sort_key lower config b))

/-- The rows that would be shown with no `max_results` cap: the sorted
records surviving the filter, rendered as rows. -/
def shownRows (lower : String → String) (config : AppConfig)
    (resolveIcon : String → String)
    (records : List ValidatorRecord) : List ReportRow :=
  ((sortedRecords lower config records).filter (keepRecord config)).map
    (mkRow config resolveIcon)

/-- The `max_results` cap: `0` shows everything; a nonzero cap truncates
after the sort and filter, and (because the break check runs only after a
row is appended) always lets at least one row through. -/
def capRows (max_results : Int) (rows : List ReportRow) : List ReportRow :=
  if max_results = 0 then rows else rows.take (max 1 max_results).toNat

/-- Status counts recomputed from a row list. -/
def countsOf (counts : List (String × Nat)) (rows : List ReportRow) :
    List (String × Nat) :=
  rows.foldl (fun c row => incrCount c row.status) counts

/-- The cap as seen from a loop state that has already emitted `shown`
rows: the next rows shown are a prefix of length `max(1, max_results -
shown)` (the loop always appends before checking). -/
def capRowsFrom (max_results : Int) (shown : Nat) (rows : List ReportRow) :
    List ReportRow :=
  if max_results = 0 then rows else rows.take (max 1 (max_results - shown)).toNat

/-! ## Helper lemmas: bit arithmetic -/

theorem shiftLeft_lor_small (a v n : Nat) (hv : v < 2 ^ n) :
    (a <<< n) ||| v = a * 2 ^ n + v := by
  apply Nat.eq_of_testBit_eq
  intro j
  rcases Nat.lt_or_ge j n with hj | hj
  · have h1 : (a <<< n).testBit j = false := by
      simp only [Nat.testBit_shiftLeft]
      simp [Nat.not_le.mpr hj]
    have hm : (a * 2 ^ n + v) % 2 ^ n = v := by
      rw [Nat.add_mod, Nat.mul_mod_left]
      simp [Nat.mod_eq_of_lt hv]
    have h2 : (a * 2 ^ n + v).testBit j = v.testBit j := by
      have := Nat.testBit_mod_two_pow (a * 2 ^ n + v) n j
      rw [hm] at this
      simp [hj] at this
      exact this.symm
    simp [Nat.testBit_or, h1, h2]
  · have hvj : v.testBit j = false :=
      Nat.testBit_lt_two_pow (Nat.lt_of_lt_of_le hv (Nat.pow_le_pow_right (by omega) hj))
    have hdiv : (a * 2 ^ n + v) / 2 ^ n = a := by
      rw [Nat.mul_comm a (2 ^ n), Nat.mul_add_div (Nat.two_pow_pos n), Nat.div_eq_of_lt hv]
      omega
    have h2 : (a * 2 ^ n + v).testBit j = a.testBit (j - n) := by
      have hshift : ((a * 2 ^ n + v) >>> n).testBit (j - n) = (a * 2 ^ n + v).testBit j := by
        rw [Nat.testBit_shiftRight]
        congr 1
        omega
      rw [← hshift, Nat.shiftRight_eq_div_pow, hdiv]
    have h1 : (a <<< n).testBit j = a.testBit (j - n) := by
      simp only [Nat.testBit_shiftLeft]
      simp [hj]
    simp [Nat.testBit_or, h1, h2, hvj]

theorem and_31_eq_mod (x : Nat) : x &&& 31 = x % 32 := by
  have := Nat.and_pow_two_sub_one_eq_mod x 5
  norm_num at this
  exact this

theorem and_4095_eq_mod (x : Nat) : x &&& 4095 = x % 4096 := by
  have := Nat.and_pow_two_sub_one_eq_mod x 12
  norm_num at this
  exact this

/-! ## Helper lemmas: base32BE and beBytesVal -/

theorem base32BE_congr (g : Nat) (M N : Nat) (h : M % 2 ^ (5 * g) = N % 2 ^ (5 * g)) :
    base32BE g M = base32BE g N := by
  induction g generalizing M N with
  | zero => rfl
  | succ g ih =>
    have hpow : (2 : Nat) ^ (5 * (g + 1)) = 2 ^ (5 * g) * 2 ^ 5 := by
      rw [← pow_add]; ring_nf
    have hhead : M >>> (5 * g) &&& 31 = N >>> (5 * g) &&& 31 := by
      rw [and_31_eq_mod, and_31_eq_mod, Nat.shiftRight_eq_div_pow, Nat.shiftRight_eq_div_pow]
      have hm := Nat.div_mod_eq_mod_mul_div M (2 ^ (5 * g)) 32
      have hn := Nat.div_mod_eq_mod_mul_div N (2 ^ (5 * g)) 32
      rw [hm, hn]
      have : (2 : Nat) ^ (5 * g) * 32 = 2 ^ (5 * (g + 1)) := by
        rw [hpow]; norm_num
      rw [this, h]
    have htail : base32BE g M = base32BE g N := by
      apply ih
      have hdvd : (2 : Nat) ^ (5 * g) ∣ 2 ^ (5 * (g + 1)) :=
        pow_dvd_pow 2 (by omega)
      calc M % 2 ^ (5 * g) = M % 2 ^ (5 * (g + 1)) % 2 ^ (5 * g) :=
            (Nat.mod_mod_of_dvd M hdvd).symm
        _ = N % 2 ^ (5 * (g + 1)) % 2 ^ (5 * g) := by rw [h]
        _ = N % 2 ^ (5 * g) := Nat.mod_mod_of_dvd N hdvd
    simp [base32BE, hhead, htail]

theorem base32BE_append (g1 g2 N : Nat) :
    base32BE (g1 + g2) N = base32BE g1 (N >>> (5 * g2)) ++ base32BE g2 N := by
  induction g1 with
  | zero => simp [base32BE]
  | succ g1 ih =>
    have hstep : g1 + 1 + g2 = (g1 + g2) + 1 := by omega
    rw [hstep]
    simp only [base32BE]
    rw [ih]
    have hhead : N >>> (5 * (g1 + g2)) = (N >>> (5 * g2)) >>> (5 * g1) := by
      rw [← Nat.shiftRight_add]
      congr 1
      omega
    rw [hhead]
    rfl

theorem beBytesVal_foldl (bs : List Nat) :
    ∀ n : Nat, bs.foldl (fun n b => n * 256 + b) n = n * 256 ^ bs.length + beBytesVal bs := by
  induction bs with
  | nil => intro n; simp [beBytesVal]
  | cons b rest ih =>
    intro n
    show rest.foldl (fun n b => n * 256 + b) (n * 256 + b) = _
    rw [ih (n * 256 + b)]
    have hb : beBytesVal (b :: rest) = b * 256 ^ rest.length + beBytesVal rest := by
      show rest.foldl (fun n b => n * 256 + b) (0 * 256 + b) = _
      rw [ih (0 * 256 + b)]
      ring_nf
    rw [hb]
    simp [List.length_cons]
    ring

theorem beBytesVal_cons (b : Nat) (rest : List Nat) :
    beBytesVal (b :: rest) = b * 256 ^ rest.length + beBytesVal rest := by
  show rest.foldl (fun n b => n * 256 + b) (0 * 256 + b) = _
  rw [beBytesVal_foldl rest (0 * 256 + b)]
  ring_nf

theorem beBytesVal_lt (bs : List Nat) (h : ∀ b ∈ bs, b < 256) :
    beBytesVal bs < 256 ^ bs.length := by
  induction bs with
  | nil => simp [beBytesVal]
  | cons b rest ih =>
    rw [beBytesVal_cons]
    have hb : b < 256 := h b (List.mem_cons_self b rest)
    have hr : beBytesVal rest < 256 ^ rest.length :=
      ih (fun x hx => h x (List.mem_cons_of_mem b hx))
    have hx : (b + 1) * 256 ^ rest.length = b * 256 ^ rest.length + 256 ^ rest.length := by
      ring
    have : b * 256 ^ rest.length + beBytesVal rest <
        (b + 1) * 256 ^ rest.length := by
      omega
    calc b * 256 ^ rest.length + beBytesVal rest < (b + 1) * 256 ^ rest.length := this
      _ ≤ 256 * 256 ^ rest.length := Nat.mul_le_mul_right _ (by omega)
      _ = 256 ^ (b :: rest).length := by rw [List.length_cons]; ring

theorem pow256_eq_pow2 (n : Nat) : (256 : Nat) ^ n = 2 ^ (8 * n) := by
  rw [show (256 : Nat) = 2 ^ 8 from rfl, ← pow_mul]

/-! ## Helper lemmas: convertbits refines the spec-side bit regrouping -/

theorem convertbitsEmitGo_spec (acc : Nat) : ∀ (fuel bits : Nat), bits ≤ fuel →
    convertbitsEmitGo 5 31 acc fuel bits =
      (base32BE ((bits - bits % 5) / 5) (acc >>> (bits % 5)), bits % 5) := by
  intro fuel
  induction fuel with
  | zero =>
    intro bits hble
    have hb0 : bits = 0 := by omega
    subst hb0
    rfl
  | succ fuel ih =>
    intro bits hble
    by_cases h5 : 5 ≤ bits
    · show (if 0 < 5 ∧ 5 ≤ bits then _ else _) = _
      rw [if_pos ⟨by omega, h5⟩]
      dsimp only
      have hrec := ih (bits - 5) (by omega)
      rw [hrec]
      have hk : (bits - 5) % 5 = bits % 5 := by omega
      have hg : (bits - 5 - (bits - 5) % 5) / 5 + 1 = (bits - bits % 5) / 5 := by omega
      rw [hk]
      rw [← hg]
      simp only [base32BE]
      have hhead : (acc >>> (bits % 5)) >>> (5 * ((bits - 5 - (bits - 5) % 5) / 5)) =
          acc >>> (bits - 5) := by
        rw [← Nat.shiftRight_add]
        congr 1
        omega
      rw [hhead]
      have hfix : bits - 5 - bits % 5 = bits - 5 - (bits - 5) % 5 := by omega
      rw [hfix]
    · show (if 0 < 5 ∧ 5 ≤ bits then _ else _) = _
      rw [if_neg (by omega)]
      have hk : bits % 5 = bits := Nat.mod_eq_of_lt (by omega)
      rw [hk]
      have : (bits - bits) / 5 = 0 := by omega
      rw [this]
      rfl

theorem convertbitsEmit_spec (acc : Nat) : ∀ bits : Nat,
    convertbitsEmit 5 31 acc bits =
      (base32BE ((bits - bits % 5) / 5) (acc >>> (bits % 5)), bits % 5) :=
  fun bits => convertbitsEmitGo_spec acc bits bits (Nat.le_refl bits)

theorem convertbitsLoop_spec :
    ∀ (data : List Nat) (acc bits : Nat), bits < 5 → (∀ v ∈ data, v < 256) →
    ∃ accF,
      convertbitsLoop 8 5 31 4095 acc bits data =
        some
          (base32BE ((bits + 8 * data.length) / 5)
            ((acc % 2 ^ bits * 2 ^ (8 * data.length) + beBytesVal data) >>>
              ((bits + 8 * data.length) % 5)),
           accF, (bits + 8 * data.length) % 5) ∧
      accF % 2 ^ ((bits + 8 * data.length) % 5) =
        (acc % 2 ^ bits * 2 ^ (8 * data.length) + beBytesVal data) %
          2 ^ ((bits + 8 * data.length) % 5) := by
  intro data
  induction data with
  | nil =>
    intro acc bits hb _
    refine ⟨acc, ?_, ?_⟩
    · have h1 : (bits + 8 * ([] : List Nat).length) / 5 = 0 := by simp; omega
      have h2 : (bits + 8 * ([] : List Nat).length) % 5 = bits := by simp; omega
      rw [h1, h2]
      rfl
    · have h2 : (bits + 8 * ([] : List Nat).length) % 5 = bits := by simp; omega
      rw [h2]
      have : beBytesVal [] = 0 := rfl
      rw [this]
      simp [Nat.mod_mod_of_dvd]
  | cons v rest ih =>
    intro acc bits hb hv
    have hv256 : v < 256 := hv v (List.mem_cons_self v rest)
    have hrest : ∀ x ∈ rest, x < 256 := fun x hx => hv x (List.mem_cons_of_mem v hx)
    have hguard : v >>> 8 = 0 := by
      rw [Nat.shiftRight_eq_div_pow]
      exact Nat.div_eq_of_lt (by norm_num; omega)
    -- abbreviations
    set R := rest.length with hR
    set bits1 := bits + 8 with hbits1
    set acc1 := ((acc <<< 8) ||| v) &&& 4095 with hacc1
    set k := bits1 % 5 with hk
    have hklt : k < 5 := Nat.mod_lt _ (by omega)
    -- the one-step unfolding of the loop
    have hstep :
        convertbitsLoop 8 5 31 4095 acc bits (v :: rest) =
          match convertbitsLoop 8 5 31 4095 acc1 (convertbitsEmit 5 31 acc1 bits1).2 rest with
          | none => none
          | some (ret, accF, bitsF) =>
            some ((convertbitsEmit 5 31 acc1 bits1).1 ++ ret, accF, bitsF) := by
      rw [convertbitsLoop]
      rw [if_neg (by simp [hguard])]
    rw [convertbitsEmit_spec acc1 bits1] at hstep
    obtain ⟨A, hA, hAm⟩ := ih acc1 k hklt hrest
    simp only at hstep
    rw [← hk] at hstep
    rw [hA] at hstep
    -- arithmetic facts
    have hpow8 : (256 : Nat) = 2 ^ 8 := rfl
    have hacc1_eq : acc1 = (acc * 256 + v) % 4096 := by
      rw [hacc1, shiftLeft_lor_small acc v 8 (by norm_num; omega), and_4095_eq_mod]
      norm_num
    have hb1le : (2 : Nat) ^ bits1 ∣ 2 ^ 12 := pow_dvd_pow 2 (by omega)
    have hacc1_mod : acc1 % 2 ^ bits1 = acc % 2 ^ bits * 256 + v := by
      rw [hacc1_eq]
      have h4096 : (4096 : Nat) = 2 ^ 12 := rfl
      rw [h4096, Nat.mod_mod_of_dvd _ hb1le]
      have hsplit : (2 : Nat) ^ bits1 = 2 ^ bits * 256 := by
        rw [hbits1, pow_add]
        norm_num
      rw [hsplit]
      have hmm : acc * 256 % (2 ^ bits * 256) = acc % 2 ^ bits * 256 :=
        Nat.mul_mod_mul_right 256 acc (2 ^ bits)
      have hmlt : acc % 2 ^ bits < 2 ^ bits := Nat.mod_lt _ (Nat.two_pow_pos bits)
      have hbound : acc % 2 ^ bits * 256 + v < 2 ^ bits * 256 := by
        have : (acc % 2 ^ bits + 1) * 256 ≤ 2 ^ bits * 256 :=
          Nat.mul_le_mul_right 256 (by omega)
        have hex : (acc % 2 ^ bits + 1) * 256 = acc % 2 ^ bits * 256 + 256 := by ring
        omega
      have hvM : v < 2 ^ bits * 256 := by
        have : (1 : Nat) * 256 ≤ 2 ^ bits * 256 :=
          Nat.mul_le_mul_right 256 (Nat.one_le_two_pow)
        omega
      rw [Nat.add_mod, hmm, Nat.mod_eq_of_lt hvM, Nat.mod_eq_of_lt hbound]
    -- stream values
    set SR := acc1 % 2 ^ k * 2 ^ (8 * R) + beBytesVal rest with hSR
    set S := acc % 2 ^ bits * 2 ^ (8 * (v :: rest).length) + beBytesVal (v :: rest) with hS
    have hlen : (v :: rest).length = R + 1 := by simp [hR]
    set E := acc1 % 2 ^ bits1 / 2 ^ k with hE
    have hsplitacc : acc1 % 2 ^ bits1 = E * 2 ^ k + acc1 % 2 ^ k := by
      have hmm : acc1 % 2 ^ bits1 % 2 ^ k = acc1 % 2 ^ k :=
        Nat.mod_mod_of_dvd _ (pow_dvd_pow 2 (by omega))
      calc acc1 % 2 ^ bits1
          = 2 ^ k * (acc1 % 2 ^ bits1 / 2 ^ k) + acc1 % 2 ^ bits1 % 2 ^ k :=
            (Nat.div_add_mod _ _).symm
        _ = E * 2 ^ k + acc1 % 2 ^ k := by rw [hmm, ← hE]; ring
    have hS_eq : S = acc1 % 2 ^ bits1 * 2 ^ (8 * R) + beBytesVal rest := by
      rw [hS, hlen, beBytesVal_cons, hacc1_mod]
      have h1 : (2 : Nat) ^ (8 * (R + 1)) = 2 ^ (8 * R) * 256 := by
        rw [show 8 * (R + 1) = 8 * R + 8 by ring, pow_add]
        norm_num
      have h2 : (256 : Nat) ^ R = 2 ^ (8 * R) := pow256_eq_pow2 R
      rw [h1, h2]
      ring
    have hS2 : S = E * 2 ^ (k + 8 * R) + SR := by
      rw [hS_eq, hsplitacc, hSR, pow_add]
      ring
    have hSR_lt : SR < 2 ^ (k + 8 * R) := by
      have h1 : acc1 % 2 ^ k < 2 ^ k := Nat.mod_lt _ (Nat.two_pow_pos k)
      have h2 : beBytesVal rest < 2 ^ (8 * R) := by
        have := beBytesVal_lt rest hrest
        rwa [pow256_eq_pow2] at this
      have h3 : (acc1 % 2 ^ k + 1) * 2 ^ (8 * R) ≤ 2 ^ k * 2 ^ (8 * R) :=
        Nat.mul_le_mul_right _ (by omega)
      have h4 : (acc1 % 2 ^ k + 1) * 2 ^ (8 * R) =
          acc1 % 2 ^ k * 2 ^ (8 * R) + 2 ^ (8 * R) := by ring
      have h5 : (2 : Nat) ^ k * 2 ^ (8 * R) = 2 ^ (k + 8 * R) := by rw [pow_add]
      rw [hSR]
      omega
    -- index bookkeeping
    set F := (bits + 8 * (v :: rest).length) % 5 with hF
    set G := (bits + 8 * (v :: rest).length) / 5 with hG
    set FR := (k + 8 * R) % 5 with hFR
    set GR := (k + 8 * R) / 5 with hGR
    set gE := (bits1 - k) / 5 with hgE
    have hFeq : F = FR := by rw [hF, hFR, hlen, hk, hbits1]; omega
    have hGeq : G = gE + GR := by rw [hG, hgE, hGR, hlen, hk, hbits1]; omega
    have hkF : k + 8 * R = F + 5 * GR := by rw [hFeq, hFR, hGR]; omega
    -- the shifted stream
    have hshift : S >>> F = E * 2 ^ (5 * GR) + SR >>> F := by
      rw [Nat.shiftRight_eq_div_pow, Nat.shiftRight_eq_div_pow, hS2, hkF, pow_add]
      have h1 : E * (2 ^ F * 2 ^ (5 * GR)) = 2 ^ F * (E * 2 ^ (5 * GR)) := by ring
      rw [h1, Nat.mul_add_div (Nat.two_pow_pos F)]
    have hA1 : (S >>> F) >>> (5 * GR) = E := by
      rw [hshift, Nat.shiftRight_eq_div_pow, Nat.shiftRight_eq_div_pow]
      have h1 : E * 2 ^ (5 * GR) = 2 ^ (5 * GR) * E := by ring
      rw [h1, Nat.mul_add_div (Nat.two_pow_pos _)]
      have h2 : SR / 2 ^ F / 2 ^ (5 * GR) = SR / 2 ^ (k + 8 * R) := by
        rw [Nat.div_div_eq_div_mul, ← pow_add, hkF]
      rw [h2, Nat.div_eq_of_lt hSR_lt]
      omega
    have h5gE : 5 * gE = bits1 - k := by rw [hgE, hk]; omega
    have hElt : E < 2 ^ (bits1 - k) := by
      rw [hE, Nat.div_lt_iff_lt_mul (Nat.two_pow_pos k), ← pow_add]
      have : bits1 - k + k = bits1 := by omega
      rw [this]
      exact Nat.mod_lt _ (Nat.two_pow_pos bits1)
    have hA2 : base32BE gE (acc1 >>> k) = base32BE gE E := by
      apply base32BE_congr
      rw [h5gE]
      have hl : (acc1 >>> k) % 2 ^ (bits1 - k) = E := by
        rw [Nat.shiftRight_eq_div_pow, Nat.div_mod_eq_mod_mul_div, ← pow_add]
        have : k + (bits1 - k) = bits1 := by omega
        rw [this, hE]
      rw [hl, Nat.mod_eq_of_lt hElt]
    have hB : base32BE GR (S >>> F) = base32BE GR (SR >>> F) := by
      apply base32BE_congr
      rw [hshift]
      have h1 : E * 2 ^ (5 * GR) = 2 ^ (5 * GR) * E := by ring
      rw [h1, Nat.mul_add_mod]
    -- final assembly
    have hstep2 :
        convertbitsLoop 8 5 31 4095 acc bits (v :: rest) =
          some (base32BE gE (acc1 >>> k) ++ base32BE GR (SR >>> FR), A, FR) := by
      rw [hstep]
    have hlist : base32BE G (S >>> F) =
        base32BE gE (acc1 >>> k) ++ base32BE GR (SR >>> FR) := by
      rw [hGeq, base32BE_append, hA1, ← hA2, hB, hFeq]
    refine ⟨A, ?_, ?_⟩
    · rw [hstep2, hlist, hFeq]
    · rw [hFeq, hAm]
      have hSmod : S % 2 ^ FR = SR % 2 ^ FR := by
        rw [← hFeq, hS2, hkF]
        have h1 : E * 2 ^ (F + 5 * GR) = 2 ^ F * (E * 2 ^ (5 * GR)) := by
          rw [pow_add]; ring
        rw [h1, Nat.mul_add_mod]
      exact hSmod.symm

theorem convertbits_take20 (bs : List Nat) (hlen : bs.length = 20)
    (hb : ∀ b ∈ bs, b < 256) :
    convertbits bs 8 5 true = some (fiveBitGroupsSpec bs) := by
  obtain ⟨A, hloop, -⟩ := convertbitsLoop_spec bs 0 0 (by omega) hb
  rw [hlen] at hloop
  norm_num at hloop
  have hmaxv : (1 <<< 5 : Nat) - 1 = 31 := by norm_num [Nat.shiftLeft_eq]
  have hmacc : (1 <<< (8 + 5 - 1) : Nat) - 1 = 4095 := by norm_num [Nat.shiftLeft_eq]
  unfold convertbits
  dsimp only
  rw [hmaxv, hmacc, hloop]
  simp only [ne_eq, not_true_eq_false, if_false]
  rw [fiveBitGroupsSpec, hlen]
  norm_num

theorem wordBytes_lt (w : Nat) : ∀ b ∈ wordBytes w, b < 256 := by
  intro b hb
  simp [wordBytes] at hb
  rcases hb with h | h | h | h <;> subst h <;> exact Nat.mod_lt _ (by norm_num)

theorem stateBytes_length (st : Sha256State) : (stateBytes st).length = 32 := by
  simp [stateBytes, wordBytes]

theorem stateBytes_mem_lt (st : Sha256State) : ∀ b ∈ stateBytes st, b < 256 := by
  simp only [stateBytes, List.forall_mem_append]
  exact ⟨⟨⟨⟨⟨⟨⟨wordBytes_lt _, wordBytes_lt _⟩, wordBytes_lt _⟩, wordBytes_lt _⟩,
    wordBytes_lt _⟩, wordBytes_lt _⟩, wordBytes_lt _⟩, wordBytes_lt _⟩

theorem sha256_length (msg : List Nat) : (sha256 msg).length = 32 :=
  stateBytes_length _

theorem sha256_mem_lt (msg : List Nat) : ∀ b ∈ sha256 msg, b < 256 :=
  fun b hb => stateBytes_mem_lt _ b hb

/-! ## Claim theorems -/

/-- C1: for every base64 string accepted by strict decoding,
`convert_pubkey_to_cons_address` returns (deterministically) the bech32
encoding with prefix `cosmosvalcons` of the first 20 bytes of the SHA-256
digest of the decoded bytes regrouped into 5-bit groups
most-significant-bit-first (the spec-side `fiveBitGroupsSpec`), and every
rejected input yields the single `ValueError` failure kind. -/
theorem C1_convert_pubkey_to_cons_address_spec (pubkey : String) :
    (∀ bs, b64decode pubkey = some bs →
      convert_pubkey_to_cons_address pubkey =
        .ok (bech32_encode "cosmosvalcons" (fiveBitGroupsSpec ((sha256 bs).take 20))) ∧
      ∃ tail, bech32_encode "cosmosvalcons" (fiveBitGroupsSpec ((sha256 bs).take 20)) =
        "cosmosvalcons" ++ tail) ∧
    convert_pubkey_to_cons_address pubkey = convert_pubkey_to_cons_address pubkey ∧
    (b64decode pubkey = none →
      convert_pubkey_to_cons_address pubkey =
        .error (.valueError "Invalid base64 consensus public key")) := by
  refine ⟨?_, rfl, ?_⟩
  · intro bs hbs
    have hlen : ((sha256 bs).take 20).length = 20 := by
      rw [List.length_take, sha256_length]
      omega
    have hmem : ∀ b ∈ (sha256 bs).take 20, b < 256 := fun b hb =>
      sha256_mem_lt bs b ((List.take_sublist 20 _).subset hb)
    have hcb := convertbits_take20 _ hlen hmem
    constructor
    · unfold convert_pubkey_to_cons_address
      rw [hbs]
      dsimp only
      rw [hcb]
    · refine ⟨"1" ++ String.mk ((fiveBitGroupsSpec ((sha256 bs).take 20) ++
        bech32_create_checksum "cosmosvalcons"
          (fiveBitGroupsSpec ((sha256 bs).take 20))).map
            (fun d => bech32Charset.data.getD d ' ')), ?_⟩
      show ("cosmosvalcons" ++ "1") ++ _ = "cosmosvalcons" ++ ("1" ++ _)
      rw [String.append_assoc]
  · intro hnone
    unfold convert_pubkey_to_cons_address
    rw [hnone]

/-- Witness for C1: the theorem applied at the accepted input `qqqq`
(which decodes to three `0xaa` bytes) and the rejected input `a`. -/
theorem C1_witness :
    b64decode "qqqq" = some [170, 170, 170] ∧
    convert_pubkey_to_cons_address "qqqq" =
      .ok (bech32_encode "cosmosvalcons"
        (fiveBitGroupsSpec ((sha256 [170, 170, 170]).take 20))) ∧
    b64decode "a" = none ∧
    convert_pubkey_to_cons_address "a" =
      .error (.valueError "Invalid base64 consensus public key") := by
  refine ⟨by decide, ?_, by decide, ?_⟩
  · exact ((C1_convert_pubkey_to_cons_address_spec "qqqq").1 [170, 170, 170] (by decide)).1
  · exact (C1_convert_pubkey_to_cons_address_spec "a").2.2 (by decide)

/-- C2: `determine_health_status` assigns exactly one of the three tiers:
jailed dominates and yields `JAILED` with its reason regardless of the
missed-block count; otherwise strictly more missed blocks than the
threshold yields `AT_RISK`; otherwise `HEALTHY`. At the boundary,
`missed_blocks = T` is `HEALTHY` and `missed_blocks = T + 1` is
`AT_RISK`. -/
theorem C2_determine_health_status (jailed : Bool) (missed_blocks : Int)
    (config : AppConfig) :
    (jailed = true → determine_health_status jailed missed_blocks config =
      ⟨"JAILED", "Validator jailed"⟩) ∧
    (jailed = false → missed_blocks > config.missed_blocks_threshold →
      determine_health_status jailed missed_blocks config =
        ⟨"AT_RISK", "High missed blocks"⟩) ∧
    (jailed = false → missed_blocks ≤ config.missed_blocks_threshold →
      determine_health_status jailed missed_blocks config =
        ⟨"HEALTHY", "All checks passed"⟩) ∧
    (determine_health_status jailed missed_blocks config).status ∈
      ["JAILED", "AT_RISK", "HEALTHY"] ∧
    (jailed = false →
      determine_health_status jailed config.missed_blocks_threshold config =
        ⟨"HEALTHY", "All checks passed"⟩ ∧
      determine_health_status jailed (config.missed_blocks_threshold + 1) config =
        ⟨"AT_RISK", "High missed blocks"⟩) := by
  refine ⟨?_, ?_, ?_, ?_, ?_⟩
  · intro h
    subst h
    rfl
  · intro h hm
    subst h
    unfold determine_health_status
    rw [if_neg (by simp), if_pos hm]
  · intro h hm
    subst h
    unfold determine_health_status
    rw [if_neg (by simp), if_neg (by omega)]
  · unfold determine_health_status
    split
    · simp
    · split
      · simp
      · simp
  · intro h
    subst h
    constructor
    · unfold determine_health_status
      rw [if_neg (by simp), if_neg (by omega)]
    · unfold determine_health_status
      rw [if_neg (by simp), if_pos (by omega)]

/-- Witness for C2: the theorem applied at jailed with zero missed
blocks, and at the boundary values around a threshold of 500. -/
theorem C2_witness :
    determine_health_status true 0 ⟨"", 500, 3, 2, false, 0, none, ""⟩ =
      ⟨"JAILED", "Validator jailed"⟩ ∧
    determine_health_status false 500 ⟨"", 500, 3, 2, false, 0, none, ""⟩ =
      ⟨"HEALTHY", "All checks passed"⟩ ∧
    determine_health_status false 501 ⟨"", 500, 3, 2, false, 0, none, ""⟩ =
      ⟨"AT_RISK", "High missed blocks"⟩ :=
  ⟨(C2_determine_health_status true 0 _).1 rfl,
   (C2_determine_health_status false 500 _).2.2.1 rfl (by norm_num),
   (C2_determine_health_status false 501 _).2.1 rfl (by norm_num)⟩

/-- General retry-loop characterisation for a first success: if attempts
`a, …, k-1` raise and attempt `k ≤ max_retries` returns a response, the
loop started at attempt `a ≤ k` breaks at attempt `k` with that body,
having slept `backoff ^ (i - 1)` before each retry `i + 1`. -/
theorem requestLoop_first_success {δ : Type} (oracle : Nat → AttemptOutcome δ)
    (mr : Nat) (bo : ℚ) (url : String) (k : Nat) (body : JsonBody δ)
    (hkm : k ≤ mr) (hsucc : oracle k = .response body) :
    ∀ a, 1 ≤ a → a ≤ k → (∀ i, a ≤ i → i < k → oracle i = .exn) →
    requestLoop oracle mr bo a url =
      (.ok body, ⟨k, (List.range' (a - 1) (k - a)).map (fun i => bo ^ i)⟩) := by
  suffices h : ∀ n a, 1 ≤ a → a ≤ k → k - a = n →
      (∀ i, a ≤ i → i < k → oracle i = .exn) →
      requestLoop oracle mr bo a url =
        (.ok body, ⟨k, (List.range' (a - 1) (k - a)).map (fun i => bo ^ i)⟩) by
    intro a ha1 hak hfail
    exact h (k - a) a ha1 hak rfl hfail
  intro n
  induction n with
  | zero =>
    intro a ha1 hak hn hfail
    have hae : a = k := by omega
    subst hae
    rw [requestLoop, hsucc]
    have h0 : a - a = 0 := by omega
    rw [h0]
    rfl
  | succ n ihn =>
    intro a ha1 hak hn hfail
    have halt : a < k := by omega
    have hexn : oracle a = .exn := hfail a (Nat.le_refl a) halt
    rw [requestLoop, hexn]
    rw [dif_neg (show ¬ a ≥ mr by omega)]
    dsimp only
    have hrec := ihn (a + 1) (by omega) (by omega) (by omega)
      (fun i hi1 hi2 => hfail i (by omega) hi2)
    rw [hrec]
    have hlen : k - a = (k - (a + 1)) + 1 := by omega
    rw [hlen, List.range'_succ]
    have hstart : a - 1 + 1 = a + 1 - 1 := by omega
    simp only [List.map_cons]
    rw [hstart]

/-- General retry-loop characterisation for exhaustion: if every attempt
up to `max_retries` raises, the loop started at attempt `a ≤ max_retries`
raises `ApiClientError` after attempt `max_retries` exactly, with the
same backoff sleeps. -/
theorem requestLoop_all_fail {δ : Type} (oracle : Nat → AttemptOutcome δ)
    (mr : Nat) (bo : ℚ) (url : String)
    (hfail : ∀ i, 1 ≤ i → i ≤ mr → oracle i = .exn) :
    ∀ a, 1 ≤ a → a ≤ mr →
    requestLoop oracle mr bo a url =
      (.error (.apiClientError ("Failed to fetch data from " ++ url)),
       ⟨mr, (List.range' (a - 1) (mr - a)).map (fun i => bo ^ i)⟩) := by
  suffices h : ∀ n a, 1 ≤ a → a ≤ mr → mr - a = n →
      requestLoop oracle mr bo a url =
        (.error (.apiClientError ("Failed to fetch data from " ++ url)),
         ⟨mr, (List.range' (a - 1) (mr - a)).map (fun i => bo ^ i)⟩) by
    intro a ha1 ham
    exact h (mr - a) a ha1 ham rfl
  intro n
  induction n with
  | zero =>
    intro a ha1 ham hn
    have hae : a = mr := by omega
    subst hae
    rw [requestLoop, hfail a ha1 (Nat.le_refl a)]
    rw [dif_pos (Nat.le_refl a)]
    have h0 : a - a = 0 := by omega
    rw [h0]
    rfl
  | succ n ihn =>
    intro a ha1 ham hn
    have halt : a < mr := by omega
    rw [requestLoop, hfail a ha1 (by omega)]
    rw [dif_neg (show ¬ a ≥ mr by omega)]
    dsimp only
    have hrec := ihn (a + 1) (by omega) (by omega) (by omega)
    rw [hrec]
    have hlen : mr - a = (mr - (a + 1)) + 1 := by omega
    rw [hlen, List.range'_succ]
    have hstart : a - 1 + 1 = a + 1 - 1 := by omega
    simp only [List.map_cons]
    rw [hstart]

/-- The loop never reports more than `max_retries` attempts when started
at an attempt number not beyond `max_retries`. -/
theorem requestLoop_attempts_le {δ : Type} (oracle : Nat → AttemptOutcome δ)
    (mr : Nat) (bo : ℚ) (url : String) :
    ∀ a, a ≤ mr → (requestLoop oracle mr bo a url).2.attemptsMade ≤ mr := by
  suffices h : ∀ n a, a ≤ mr → mr - a = n →
      (requestLoop oracle mr bo a url).2.attemptsMade ≤ mr by
    intro a ham
    exact h (mr - a) a ham rfl
  intro n
  induction n with
  | zero =>
    intro a ham hn
    rw [requestLoop]
    cases h : oracle a with
    | response body => exact ham
    | exn =>
      rw [dif_pos (by omega)]
      exact ham
  | succ n ihn =>
    intro a ham hn
    rw [requestLoop]
    cases h : oracle a with
    | response body => exact ham
    | exn =>
      rw [dif_neg (show ¬ a ≥ mr by omega)]
      exact ihn (a + 1) (by omega) (by omega)

/-- C3: with a valid endpoint, `get_api_data` performs at most
`max_retries` GET attempts; a first success at attempt `k ≤ max_retries`
with an object body returns that payload (no exception), after sleeping
`backoff ^ 0, backoff ^ 1, …` before each retry; and if every attempt
fails it raises `ApiClientError` after exactly `max_retries` attempts. -/
theorem C3_get_api_data_retry {δ : Type} (oracle : Nat → AttemptOutcome δ)
    (endpoint base_url : String) (mr : Nat) (bo : ℚ)
    (hmr : 1 ≤ mr) (hbo : 0 < bo) (hep : startsWithSlash endpoint = true) :
    ((get_api_data oracle endpoint base_url mr bo).2.attemptsMade ≤ mr) ∧
    (∀ k d, 1 ≤ k → k ≤ mr → (∀ i, 1 ≤ i → i < k → oracle i = .exn) →
      oracle k = .response (.obj d) →
      get_api_data oracle endpoint base_url mr bo =
        (.ok d, ⟨k, (List.range (k - 1)).map (fun i => bo ^ i)⟩)) ∧
    ((∀ i, 1 ≤ i → i ≤ mr → oracle i = .exn) →
      get_api_data oracle endpoint base_url mr bo =
        (.error (.apiClientError ("Failed to fetch data from " ++ (base_url ++ endpoint))),
         ⟨mr, (List.range (mr - 1)).map (fun i => bo ^ i)⟩)) := by
  refine ⟨?_, ?_, ?_⟩
  · have hloop := requestLoop_attempts_le oracle mr bo (base_url ++ endpoint) 1 hmr
    unfold get_api_data
    rw [if_neg (by simp [hep])]
    dsimp only
    rcases hrl : requestLoop oracle mr bo 1 (base_url ++ endpoint) with ⟨res, t⟩
    rw [hrl] at hloop
    rcases res with e | body
    · exact hloop
    · rcases body with _ | d | ty <;> exact hloop
  · intro k d hk1 hkm hfail hsucc
    unfold get_api_data
    rw [if_neg (by simp [hep])]
    dsimp only
    rw [requestLoop_first_success oracle mr bo (base_url ++ endpoint) k (.obj d) hkm hsucc
      1 (Nat.le_refl 1) hk1 (fun i hi1 hi2 => hfail i hi1 hi2)]
    rw [List.range_eq_range']
  · intro hfail
    unfold get_api_data
    rw [if_neg (by simp [hep])]
    dsimp only
    rw [requestLoop_all_fail oracle mr bo (base_url ++ endpoint) hfail 1 (Nat.le_refl 1) hmr]
    rw [List.range_eq_range']

/-- Witness for C3: a transport oracle failing twice then answering with
an object payload, under `max_retries = 3` and backoff base 2; and an
always-failing oracle exhausting the budget. -/
theorem C3_witness :
    get_api_data (fun n => if n < 3 then AttemptOutcome.exn else .response (.obj (7 : Nat)))
        "/x" "http://u" 3 2 =
      (.ok 7, ⟨3, (List.range (3 - 1)).map (fun i => (2 : ℚ) ^ i)⟩) ∧
    get_api_data (fun _ => (AttemptOutcome.exn : AttemptOutcome Nat)) "/x" "http://u" 3 2 =
      (.error (.apiClientError ("Failed to fetch data from " ++ ("http://u" ++ "/x"))),
       ⟨3, (List.range (3 - 1)).map (fun i => (2 : ℚ) ^ i)⟩) := by
  constructor
  · exact (C3_get_api_data_retry _ "/x" "http://u" 3 2 (by norm_num) (by norm_num)
      (by decide)).2.1 3 7 (by norm_num) (by norm_num)
      (fun i _ h2 => by simp [h2]) (by simp)
  · exact (C3_get_api_data_retry _ "/x" "http://u" 3 2 (by norm_num) (by norm_num)
      (by decide)).2.2 (fun i _ _ => rfl)

/-- C9: once the HTTP request succeeds at some attempt `k ≤ max_retries`,
a body that is not a JSON object — unparseable text or a parseable
non-object — is a permanent failure for the call: `get_api_data` raises
`ApiClientError` with no further attempt (the trace stops at `k`), the
same single error kind produced by transport failure after retry
exhaustion. -/
theorem C9_get_api_data_body_shape {δ : Type} (oracle : Nat → AttemptOutcome δ)
    (endpoint base_url : String) (mr : Nat) (bo : ℚ)
    (hep : startsWithSlash endpoint = true) :
    (∀ k, 1 ≤ k → k ≤ mr → (∀ i, 1 ≤ i → i < k → oracle i = .exn) →
      (oracle k = .response .invalid →
        get_api_data oracle endpoint base_url mr bo =
          (.error (.apiClientError ("Invalid JSON response from " ++ (base_url ++ endpoint))),
           ⟨k, (List.range (k - 1)).map (fun i => bo ^ i)⟩)) ∧
      (∀ ty, oracle k = .response (.notObj ty) →
        get_api_data oracle endpoint base_url mr bo =
          (.error (.apiClientError ("Unexpected response type from " ++ (base_url ++ endpoint)
              ++ ": " ++ ty)),
           ⟨k, (List.range (k - 1)).map (fun i => bo ^ i)⟩))) ∧
    ((∀ i, 1 ≤ i → i ≤ mr → oracle i = .exn) → 1 ≤ mr →
      ∃ msg, (get_api_data oracle endpoint base_url mr bo).1 =
        .error (.apiClientError msg)) := by
  constructor
  · intro k hk1 hkm hfail
    constructor
    · intro hsucc
      unfold get_api_data
      rw [if_neg (by simp [hep])]
      dsimp only
      rw [requestLoop_first_success oracle mr bo (base_url ++ endpoint) k .invalid hkm hsucc
        1 (Nat.le_refl 1) hk1 (fun i hi1 hi2 => hfail i hi1 hi2)]
      rw [List.range_eq_range']
    · intro ty hsucc
      unfold get_api_data
      rw [if_neg (by simp [hep])]
      dsimp only
      rw [requestLoop_first_success oracle mr bo (base_url ++ endpoint) k (.notObj ty) hkm
        hsucc 1 (Nat.le_refl 1) hk1 (fun i hi1 hi2 => hfail i hi1 hi2)]
      rw [List.range_eq_range']
  · intro hfail hmr
    refine ⟨"Failed to fetch data from " ++ (base_url ++ endpoint), ?_⟩
    unfold get_api_data
    rw [if_neg (by simp [hep])]
    dsimp only
    rw [requestLoop_all_fail oracle mr bo (base_url ++ endpoint) hfail 1 (Nat.le_refl 1) hmr]

/-- Witness for C9: a first-attempt response whose body is unparseable,
and one whose body is a JSON array (type name `list`), both under
`max_retries = 3`. -/
theorem C9_witness :
    get_api_data (fun _ => (AttemptOutcome.response .invalid : AttemptOutcome Nat))
        "/x" "http://u" 3 2 =
      (.error (.apiClientError ("Invalid JSON response from " ++ ("http://u" ++ "/x"))),
       ⟨1, (List.range (1 - 1)).map (fun i => (2 : ℚ) ^ i)⟩) ∧
    get_api_data (fun _ => (AttemptOutcome.response (.notObj "list") : AttemptOutcome Nat))
        "/x" "http://u" 3 2 =
      (.error (.apiClientError ("Unexpected response type from " ++ ("http://u" ++ "/x")
          ++ ": " ++ "list")),
       ⟨1, (List.range (1 - 1)).map (fun i => (2 : ℚ) ^ i)⟩) := by
  constructor
  · exact ((C9_get_api_data_body_shape _ "/x" "http://u" 3 2 (by decide)).1 1 (by norm_num)
      (by norm_num) (fun i hi1 hi2 => absurd (Nat.lt_of_le_of_lt hi1 hi2) (by norm_num))).1 rfl
  · exact ((C9_get_api_data_body_shape _ "/x" "http://u" 3 2 (by decide)).1 1 (by norm_num)
      (by norm_num) (fun i hi1 hi2 => absurd (Nat.lt_of_le_of_lt hi1 hi2) (by norm_num))).2
      "list" rfl

/-- C7: `collect_validator_records` is a per-item filter-map — it never
aborts on a faulty validator. A validator without a usable public key, or
whose key fails address derivation, contributes no record; hence at most
one record per input validator. When a record is produced, a missing or
unparseable missed-blocks counter gives count `0`, and a missing or
unparseable commission rate gives the distinct unknown value (`none`),
not zero. -/
theorem C7_collect_validator_records (m : SigningInfoMap) (vs : List RawValidator) :
    collect_validator_records m vs = vs.filterMap (recordOf m) ∧
    (collect_validator_records m vs).length ≤ vs.length ∧
    (∀ v : RawValidator, v.consensus_pubkey_key = none → recordOf m v = none) ∧
    (∀ (v : RawValidator) (pk : String) (e : PyExc), v.consensus_pubkey_key = some pk →
      convert_pubkey_to_cons_address pk = .error e → recordOf m v = none) ∧
    (∀ (v : RawValidator) (r : ValidatorRecord), recordOf m v = some r →
      (pyInt (missedBlocksRaw m r.consensus_address) = none → r.missed_blocks = 0) ∧
      (v.commission_rate_raw = none → r.commission_rate = none) ∧
      (∀ raw, v.commission_rate_raw = some raw → pyFloat raw = none →
        r.commission_rate = none)) := by
  have hfm : collect_validator_records m vs = vs.filterMap (recordOf m) := by
    induction vs with
    | nil => rfl
    | cons v rest ih =>
      rw [List.filterMap_cons]
      cases h : recordOf m v with
      | none =>
        show collect_validator_records m (v :: rest) = rest.filterMap (recordOf m)
        rw [collect_validator_records, h, ih]
      | some r =>
        show collect_validator_records m (v :: rest) = r :: rest.filterMap (recordOf m)
        rw [collect_validator_records, h, ih]
  refine ⟨hfm, ?_, ?_, ?_, ?_⟩
  · rw [hfm]
    exact List.length_filterMap_le _ _
  · intro v hnone
    unfold recordOf
    rw [hnone]
  · intro v pk e hpk herr
    unfold recordOf
    rw [hpk]
    dsimp only
    rw [herr]
  · intro v r hrec
    unfold recordOf at hrec
    rcases hpk : v.consensus_pubkey_key with _ | pk
    · rw [hpk] at hrec
      exact absurd hrec (by simp)
    · rw [hpk] at hrec
      dsimp only at hrec
      rcases hconv : convert_pubkey_to_cons_address pk with e | addr
      · rw [hconv] at hrec
        exact absurd hrec (by simp)
      · rw [hconv] at hrec
        dsimp only at hrec
        have hr := (Option.some.injEq _ _).mp hrec
        subst hr
        refine ⟨?_, ?_, ?_⟩
        · intro hparse
          dsimp only
          dsimp only at hparse
          rw [hparse]
          rfl
        · intro hc
          dsimp only
          rw [hc]
        · intro raw hc hpf
          dsimp only
          rw [hc]
          dsimp only
          exact hpf

/-- Witness for C7: an empty signing map with one keyless validator, one
with an invalid base64 key, and one with a valid key (deriving the
address of three `0xaa` bytes); the missed-blocks counter and commission
rate default as claimed. -/
theorem C7_witness :
    collect_validator_records [] [⟨none, none, none, none, false, none⟩] =
      [(⟨none, none, none, none, false, none⟩ : RawValidator)].filterMap (recordOf []) ∧
    recordOf [] ⟨none, none, none, none, false, none⟩ = none ∧
    recordOf [] ⟨none, none, none, some "a", false, none⟩ = none ∧
    ((pyInt (missedBlocksRaw []
        "cosmosvalcons1nd5y9j7y35p9ynq9vm8lrm2rw0zywyeygdvp2a") = none →
      (0 : Int) = 0) ∧
     ((none : Option String) = none →
      (none : Option ℚ) = none) ∧
     (∀ raw, (none : Option String) = some raw → pyFloat raw = none →
      (none : Option ℚ) = none)) := by
  refine ⟨(C7_collect_validator_records [] _).1, ?_, ?_, ?_⟩
  · exact (C7_collect_validator_records [] []).2.2.1 _ rfl
  · exact (C7_collect_validator_records [] []).2.2.2.1
      ⟨none, none, none, some "a", false, none⟩ "a"
      (.valueError "Invalid base64 consensus public key") rfl rfl
  · exact (C7_collect_validator_records [] []).2.2.2.2
      ⟨none, none, none, some "qqqq", false, none⟩
      ⟨"Unknown", none, "cosmosvalcons1nd5y9j7y35p9ynq9vm8lrm2rw0zywyeygdvp2a",
        false, 0, none⟩
      (by decide)

/-! ## Helper lemmas: the report loop -/

theorem mkRow_status (config : AppConfig) (ricon : String → String)
    (r : ValidatorRecord) :
    (mkRow config ricon r).status =
      (determine_health_status r.jailed r.missed_blocks config).status := rfl

theorem mkRow_moniker (config : AppConfig) (ricon : String → String)
    (r : ValidatorRecord) : (mkRow config ricon r).moniker = r.moniker := rfl

theorem buildRows_spec (config : AppConfig) (ricon : String → String) :
    ∀ (recs : List ValidatorRecord) (rows0 : List ReportRow)
      (counts0 : List (String × Nat)),
    buildRows config ricon recs rows0 counts0 =
      (rows0 ++ capRowsFrom config.max_results rows0.length
          ((recs.filter (keepRecord config)).map (mkRow config ricon)),
       countsOf counts0 (capRowsFrom config.max_results rows0.length
          ((recs.filter (keepRecord config)).map (mkRow config ricon)))) := by
  intro recs
  induction recs with
  | nil =>
    intro rows0 counts0
    simp [buildRows, capRowsFrom, countsOf]
  | cons r rest ih =>
    intro rows0 counts0
    by_cases hskip : config.hide_healthy ∧
        (determine_health_status r.jailed r.missed_blocks config).status = "HEALTHY"
    · have hkeep : keepRecord config r = false := by
        simp only [keepRecord, decide_eq_false_iff_not, Decidable.not_not]
        exact hskip
      have hstep : buildRows config ricon (r :: rest) rows0 counts0 =
          buildRows config ricon rest rows0 counts0 := by
        rw [buildRows, if_pos hskip]
      rw [hstep, ih, List.filter_cons_of_neg (by simp [hkeep])]
    · have hkeep : keepRecord config r = true := by
        simp only [keepRecord, decide_eq_true_eq]
        exact hskip
      have hfc : (r :: rest).filter (keepRecord config) =
          r :: rest.filter (keepRecord config) :=
        List.filter_cons_of_pos (by simp [hkeep])
      by_cases hbrk : config.max_results ≠ 0 ∧
          (((rows0 ++ [mkRow config ricon r]).length : Int) ≥ config.max_results)
      · have hstep : buildRows config ricon (r :: rest) rows0 counts0 =
            (rows0 ++ [mkRow config ricon r], incrCount counts0
              (determine_health_status r.jailed r.missed_blocks config).status) := by
          rw [buildRows, if_neg hskip, if_pos hbrk]
        rw [hstep, hfc, List.map_cons]
        have hb2 : (rows0.length : Int) + 1 ≥ config.max_results := by
          have := hbrk.2
          simp only [List.length_append, List.length_singleton] at this
          push_cast at this
          omega
        have hcap : capRowsFrom config.max_results rows0.length
            (mkRow config ricon r ::
              (rest.filter (keepRecord config)).map (mkRow config ricon)) =
            [mkRow config ricon r] := by
          unfold capRowsFrom
          rw [if_neg hbrk.1]
          have h1 : (max 1 (config.max_results - (rows0.length : Int))).toNat = 1 := by
            omega
          rw [h1]
          rfl
        rw [hcap]
        simp [countsOf, mkRow_status]
      · have hstep : buildRows config ricon (r :: rest) rows0 counts0 =
            buildRows config ricon rest (rows0 ++ [mkRow config ricon r])
              (incrCount counts0
                (determine_health_status r.jailed r.missed_blocks config).status) := by
          rw [buildRows, if_neg hskip, if_neg hbrk]
        rw [hstep, ih, hfc, List.map_cons]
        have hlen1 : (rows0 ++ [mkRow config ricon r]).length = rows0.length + 1 := by
          simp
        rw [hlen1]
        have hsplit : capRowsFrom config.max_results rows0.length
            (mkRow config ricon r ::
              (rest.filter (keepRecord config)).map (mkRow config ricon)) =
            mkRow config ricon r :: capRowsFrom config.max_results (rows0.length + 1)
              ((rest.filter (keepRecord config)).map (mkRow config ricon)) := by
          unfold capRowsFrom
          by_cases hmr : config.max_results = 0
          · rw [if_pos hmr, if_pos hmr]
          · rw [if_neg hmr, if_neg hmr]
            have hlt : (rows0.length : Int) + 1 < config.max_results := by
              rcases not_and_or.mp hbrk with h | h
              · exact absurd (Decidable.not_not.mp h) hmr
              · have h2 := lt_of_not_ge h
                simp only [List.length_append, List.length_singleton] at h2
                push_cast at h2
                omega
            have h1 : (max 1 (config.max_results - (rows0.length : Int))).toNat =
                (max 1 (config.max_results - ((rows0.length + 1 : Nat) : Int))).toNat
                  + 1 := by
              push_cast
              omega
            rw [h1, List.take_succ_cons]
        rw [hsplit]
        simp [List.append_assoc, countsOf, mkRow_status]

/-- `prepare_report_data` in closed form: the rows are the cap applied to
the filtered sorted rows, the counts are recomputed from exactly those
rows, and the flag records a hidden-everything outcome. -/
theorem prepare_report_data_eq (records : List ValidatorRecord) (config : AppConfig)
    (ricon : String → String) (lower : String → String) :
    prepare_report_data records config ricon lower =
      { rows := capRows config.max_results (shownRows lower config ricon records)
        status_counts :=
          countsOf [] (capRows config.max_results (shownRows lower config ricon records))
        total_records := records.length
        total_shown :=
          (capRows config.max_results (shownRows lower config ricon records)).length
        filtered_out_healthy := decide (config.hide_healthy ∧ records.length > 0 ∧
          (capRows config.max_results (shownRows lower config ricon records)).length = 0) } := by
  have hcap0 : ∀ rows, capRowsFrom config.max_results (List.length ([] : List ReportRow))
      rows = capRows config.max_results rows := by
    intro rows
    unfold capRowsFrom capRows
    by_cases hmr : config.max_results = 0
    · rw [if_pos hmr, if_pos hmr]
    · rw [if_neg hmr, if_neg hmr]
      have : config.max_results - ((List.length ([] : List ReportRow) : Nat) : Int) =
          config.max_results := by
        simp
      rw [this]
  unfold prepare_report_data
  dsimp only
  rw [buildRows_spec, hcap0]
  simp only [List.nil_append]
  rfl

theorem sumValues_incrCount (c : List (String × Nat)) (s : String) :
    sumValues (incrCount c s) = sumValues c + 1 := by
  induction c with
  | nil => rfl
  | cons p rest ih =>
    rcases p with ⟨k, v⟩
    by_cases hk : k == s
    · simp [incrCount, hk, sumValues]
      omega
    · simp only [incrCount, hk]
      rw [if_neg (by simp_all)]
      simp [sumValues] at ih ⊢
      omega

theorem sumValues_countsOf (rows : List ReportRow) :
    ∀ c, sumValues (countsOf c rows) = sumValues c + rows.length := by
  induction rows with
  | nil => intro c; simp [countsOf]
  | cons row rest ih =>
    intro c
    show sumValues (countsOf (incrCount c row.status) rest) = _
    rw [ih, sumValues_incrCount]
    simp
    omega

theorem countGet_cons (k1 : String) (v1 : Nat) (l : List (String × Nat)) (s : String) :
    countGet ((k1, v1) :: l) s = if k1 == s then v1 else countGet l s := by
  by_cases h : k1 == s
  · simp only [countGet, List.find?_cons_of_pos _ h]
    simp [h]
  · simp only [countGet]
    rw [List.find?_cons_of_neg _ (by simpa using h)]
    simp [h]

theorem countGet_incrCount_ne (c : List (String × Nat)) (k s : String) (h : k ≠ s) :
    countGet (incrCount c k) s = countGet c s := by
  induction c with
  | nil =>
    show countGet [(k, 1)] s = countGet [] s
    rw [countGet_cons]
    rw [if_neg (by simpa using h)]
  | cons p rest ih =>
    rcases p with ⟨k1, v1⟩
    by_cases hk : k1 == k
    · simp only [incrCount, hk, if_pos]
      rw [countGet_cons, countGet_cons]
      have hks : (k1 == s) = false := by simp_all
      simp [hks]
    · simp only [incrCount, hk]
      rw [if_neg (by simp_all)]
      rw [countGet_cons, countGet_cons, ih]

theorem countGet_countsOf_ne (rows : List ReportRow) (s : String)
    (h : ∀ row ∈ rows, row.status ≠ s) :
    ∀ c, countGet (countsOf c rows) s = countGet c s := by
  induction rows with
  | nil => intro c; rfl
  | cons row rest ih =>
    intro c
    show countGet (countsOf (incrCount c row.status) rest) s = _
    rw [ih (fun x hx => h x (List.mem_cons_of_mem row hx))]
    exact countGet_incrCount_ne c row.status s (h row (List.mem_cons_self row rest))

theorem keyLE_refl (a : Nat × String) : keyLE a a = true := by
  simp [keyLE]

theorem keyLE_total (a b : Nat × String) : keyLE a b || keyLE b a := by
  simp only [keyLE, Bool.or_eq_true, decide_eq_true_eq]
  rcases Nat.lt_trichotomy a.1 b.1 with h | h | h
  · exact Or.inl (Or.inl h)
  · rcases le_total a.2 b.2 with hs | hs
    · exact Or.inl (Or.inr ⟨h, not_lt.mpr hs⟩)
    · exact Or.inr (Or.inr ⟨h.symm, not_lt.mpr hs⟩)
  · exact Or.inr (Or.inl h)

theorem keyLE_trans (a b c : Nat × String) (hab : keyLE a b) (hbc : keyLE b c) :
    keyLE a c := by
  simp only [keyLE, decide_eq_true_eq, not_lt] at hab hbc ⊢
  rcases hab with h1 | ⟨h1, h1s⟩
  · rcases hbc with h2 | ⟨h2, _⟩
    · exact Or.inl (h1.trans h2)
    · exact Or.inl (h2 ▸ h1)
  · rcases hbc with h2 | ⟨h2, h2s⟩
    · exact Or.inl (h1 ▸ h2)
    · exact Or.inr ⟨h1.trans h2, h1s.trans h2s⟩

/-- C8: in every report, `total_shown`, the number of emitted rows, and
the sum of the per-status counts agree. -/
theorem C8_report_count_invariant (records : List ValidatorRecord) (config : AppConfig)
    (ricon : String → String) (lower : String → String) :
    (prepare_report_data records config ricon lower).total_shown =
      (prepare_report_data records config ricon lower).rows.length ∧
    (prepare_report_data records config ricon lower).rows.length =
      sumValues (prepare_report_data records config ricon lower).status_counts := by
  rw [prepare_report_data_eq]
  refine ⟨rfl, ?_⟩
  dsimp only
  rw [sumValues_countsOf]
  simp [sumValues]

/-- C6: a positive `max_results = N` truncates the rows to the first `N`
of the sorted-and-filtered row list (the cap acts after sorting and
filtering), so at most `N` rows are shown; the status counts are
recomputed from exactly the shown rows, while `total_records` still
counts the whole input. -/
theorem C6_max_results_cap (records : List ValidatorRecord) (config : AppConfig)
    (ricon : String → String) (lower : String → String) (N : Int) (hN : 0 < N) (hmr : config.max_results = N) :
    (prepare_report_data records config ricon lower).rows =
      (shownRows lower config ricon records).take N.toNat ∧
    (prepare_report_data records config ricon lower).total_shown ≤ N.toNat ∧
    (prepare_report_data records config ricon lower).status_counts =
      countsOf [] (prepare_report_data records config ricon lower).rows ∧
    (prepare_report_data records config ricon lower).total_records = records.length := by
  rw [prepare_report_data_eq]
  dsimp only
  have hcap : capRows config.max_results (shownRows lower config ricon records) =
      (shownRows lower config ricon records).take N.toNat := by
    unfold capRows
    rw [hmr, if_neg (by omega)]
    have : (max 1 N).toNat = N.toNat := by omega
    rw [this]
  rw [hcap]
  refine ⟨rfl, ?_, rfl, rfl⟩
  rw [List.length_take]
  exact Nat.min_le_left _ _

/-- Witness for C6: two healthy records with `max_results = 1` show at
most one row. -/
theorem C6_witness :
    (prepare_report_data
      [⟨"a", none, "x", false, 0, none⟩, ⟨"b", none, "y", false, 0, none⟩]
      ⟨"", 500, 3, 2, false, 1, none, ""⟩
      (fun s => iconGet STATUS_ICONS_ASCII s "") (fun s => s)).total_shown ≤ (1 : Int).toNat :=
  (C6_max_results_cap _ _ _ _ 1 (by norm_num) rfl).2.1

/-- C4: for every lowercasing function `lower` — in particular the
interpreter's `str.lower` — the record list is stably sorted by severity
then lowercased moniker: the sorted sequence is ordered under the key
order, pairs with equal keys (same tier, identical lowercased monikers)
keep their original relative order, the emitted rows are a subsequence
of the full sorted row sequence (filtering and capping never reorder),
and the rows themselves are ordered by (severity, lowercased
moniker). -/
theorem C4_row_ordering (records : List ValidatorRecord) (config : AppConfig)
    (ricon : String → String) (lower : String → String) :
    (sortedRecords lower config records).Pairwise
      (fun a b => keyLE (sort_key lower config a) (sort_key lower config b) = true) ∧
    (∀ a b, sort_key lower config a = sort_key lower config b → List.Sublist [a, b] records →
      List.Sublist [a, b] (sortedRecords lower config records)) ∧
    List.Sublist (prepare_report_data records config ricon lower).rows
      ((sortedRecords lower config records).map (mkRow config ricon)) ∧
    (prepare_report_data records config ricon lower).rows.Pairwise
      (fun ra rb => keyLE (statusOrder ra.status, lower ra.moniker)
        (statusOrder rb.status, lower rb.moniker) = true) := by
  have htrans : ∀ a b c : ValidatorRecord,
      keyLE (sort_key lower config a) (sort_key lower config b) →
      keyLE (sort_key lower config b) (sort_key lower config c) →
      keyLE (sort_key lower config a) (sort_key lower config c) :=
    fun a b c hab hbc => keyLE_trans _ _ _ hab hbc
  have htotal : ∀ a b : ValidatorRecord,
      keyLE (sort_key lower config a) (sort_key lower config b) ||
        keyLE (sort_key lower config b) (sort_key lower config a) :=
    fun a b => keyLE_total _ _
  have hsorted := List.sorted_mergeSort htrans htotal records
  have hsub : List.Sublist (prepare_report_data records config ricon lower).rows
      ((sortedRecords lower config records).map (mkRow config ricon)) := by
    rw [prepare_report_data_eq]
    dsimp only
    have h1 : List.Sublist (capRows config.max_results (shownRows lower config ricon records))
        (shownRows lower config ricon records) := by
      unfold capRows
      by_cases hmr : config.max_results = 0
      · rw [if_pos hmr]
      · rw [if_neg hmr]
        exact List.take_sublist _ _
    have h2 : List.Sublist (shownRows lower config ricon records)
        ((sortedRecords lower config records).map (mkRow config ricon)) := by
      unfold shownRows
      exact (List.filter_sublist _).map _
    exact h1.trans h2
  refine ⟨hsorted, ?_, hsub, ?_⟩
  · intro a b hkey hab
    exact List.pair_sublist_mergeSort htrans htotal
      (by rw [show keyLE (sort_key lower config a) (sort_key lower config b) =
        keyLE (sort_key lower config a) (sort_key lower config a) from by rw [hkey]]
          exact keyLE_refl _) hab
  · have hmap : ((sortedRecords lower config records).map (mkRow config ricon)).Pairwise
        (fun ra rb => keyLE (statusOrder ra.status, lower ra.moniker)
          (statusOrder rb.status, lower rb.moniker) = true) := by
      rw [List.pairwise_map]
      exact hsorted
    exact hmap.sublist hsub

/-- Witness for C4 stability: two records with the same sort key (same
status tier, same moniker) stay in their original order. -/
theorem C4_witness :
    List.Sublist
      [(⟨"X", none, "p", false, 0, none⟩ : ValidatorRecord),
       ⟨"X", none, "q", false, 0, none⟩]
      (sortedRecords (fun s => s) ⟨"", 500, 3, 2, false, 0, none, ""⟩
        [⟨"X", none, "p", false, 0, none⟩, ⟨"X", none, "q", false, 0, none⟩]) :=
  (C4_row_ordering
      [⟨"X", none, "p", false, 0, none⟩, ⟨"X", none, "q", false, 0, none⟩]
      ⟨"", 500, 3, 2, false, 0, none, ""⟩
      (fun s => iconGet STATUS_ICONS_ASCII s "") (fun s => s)).2.1
    _ _ (by decide) (List.Sublist.refl _)

theorem take_ne_nil_of_ne_nil {α : Type} (l : List α) (n : Nat)
    (hl : l ≠ []) (hn : n ≠ 0) : l.take n ≠ [] := by
  cases l with
  | nil => exact absurd rfl hl
  | cons a rest =>
    cases n with
    | zero => exact absurd rfl hn
    | succ m => simp [List.take_succ_cons]

theorem keepRecord_false_iff (config : AppConfig) (r : ValidatorRecord) :
    keepRecord config r = false ↔ (config.hide_healthy = true ∧
      (determine_health_status r.jailed r.missed_blocks config).status = "HEALTHY") := by
  simp [keepRecord]

/-- The emitted row list is empty exactly when no record survives the
hide-healthy filter (the cap never empties a nonempty list). -/
theorem rows_eq_nil_iff (records : List ValidatorRecord) (config : AppConfig)
    (ricon : String → String) (lower : String → String) :
    (prepare_report_data records config ricon lower).rows = [] ↔
      ∀ r ∈ records, keepRecord config r = false := by
  rw [prepare_report_data_eq]
  dsimp only
  constructor
  · intro hcap r hr
    by_contra hkeep
    have hkeep' : keepRecord config r = true := by
      cases h : keepRecord config r
      · exact absurd h hkeep
      · rfl
    have hmem : r ∈ (sortedRecords lower config records).filter (keepRecord config) :=
      List.mem_filter.mpr ⟨by
        unfold sortedRecords
        rw [List.mem_mergeSort]
        exact hr, hkeep'⟩
    have hne : shownRows lower config ricon records ≠ [] := by
      unfold shownRows
      intro hnil
      rw [List.map_eq_nil] at hnil
      rw [hnil] at hmem
      exact (List.not_mem_nil r) hmem
    unfold capRows at hcap
    by_cases hmr : config.max_results = 0
    · rw [if_pos hmr] at hcap
      exact hne hcap
    · rw [if_neg hmr] at hcap
      exact take_ne_nil_of_ne_nil _ _ hne (by omega) hcap
  · intro hall
    have hfil : (sortedRecords lower config records).filter (keepRecord config) = [] := by
      rw [List.filter_eq_nil]
      intro a ha
      have : a ∈ records := by
        unfold sortedRecords at ha
        rw [List.mem_mergeSort] at ha
        exact ha
      simp [hall a this]
    unfold capRows shownRows
    rw [hfil]
    simp

/-- C5 counterexample to the claim as stated: on the empty record list
(in which every record is vacuously healthy) with `hide_healthy` set,
`filtered_out_healthy` is `false`, not `true`; and on an all-healthy
two-record input with `hide_healthy` unset but `max_results = 1`,
`total_shown` is 1 while `total_records` is 2. -/
theorem C5_counterexample :
    (∀ r ∈ ([] : List ValidatorRecord),
      (determine_health_status r.jailed r.missed_blocks
        ⟨"", 500, 3, 2, true, 0, none, ""⟩).status = "HEALTHY") ∧
    (prepare_report_data [] ⟨"", 500, 3, 2, true, 0, none, ""⟩
      (fun s => iconGet STATUS_ICONS_ASCII s "") (fun s => s)).filtered_out_healthy = false ∧
    (∀ r ∈ [(⟨"a", none, "x", false, 0, none⟩ : ValidatorRecord),
        ⟨"b", none, "y", false, 0, none⟩],
      (determine_health_status r.jailed r.missed_blocks
        ⟨"", 500, 3, 2, false, 1, none, ""⟩).status = "HEALTHY") ∧
    (prepare_report_data
      [⟨"a", none, "x", false, 0, none⟩, ⟨"b", none, "y", false, 0, none⟩]
      ⟨"", 500, 3, 2, false, 1, none, ""⟩
      (fun s => iconGet STATUS_ICONS_ASCII s "") (fun s => s)).total_shown = 1 ∧
    (prepare_report_data
      [⟨"a", none, "x", false, 0, none⟩, ⟨"b", none, "y", false, 0, none⟩]
      ⟨"", 500, 3, 2, false, 1, none, ""⟩
      (fun s => iconGet STATUS_ICONS_ASCII s "") (fun s => s)).total_records = 2 := by
  refine ⟨by simp, ?_, by decide, ?_, ?_⟩
  · rw [prepare_report_data_eq]
    simp
  · rw [prepare_report_data_eq]
    dsimp only
    have hshown : (shownRows (fun s => s) ⟨"", 500, 3, 2, false, 1, none, ""⟩
        (fun s => iconGet STATUS_ICONS_ASCII s "")
        [⟨"a", none, "x", false, 0, none⟩, ⟨"b", none, "y", false, 0, none⟩]).length
          = 2 := by
      unfold shownRows
      rw [List.length_map]
      rw [List.filter_eq_self.mpr (fun a _ => by simp [keepRecord])]
      unfold sortedRecords
      rw [List.length_mergeSort]
      rfl
    unfold capRows
    rw [if_neg (by norm_num)]
    rw [List.length_take, hshown]
    rfl
  · rw [prepare_report_data_eq]
    rfl

/-- C5 (amended): with `hide_healthy` set, no emitted row is `HEALTHY`
and the `HEALTHY` count is zero, while `total_records` still counts every
input record. On an input in which every record classifies `HEALTHY`,
`hide_healthy` gives `total_shown = 0`, and `filtered_out_healthy` is set
provided the input is non-empty; without `hide_healthy`, and with no
`max_results` cap, `total_shown` equals `total_records`. (The
non-emptiness proviso and the no-cap proviso are forced by
`C5_counterexample`.) -/
theorem C5_hide_healthy (records : List ValidatorRecord) (config : AppConfig)
    (ricon : String → String) (lower : String → String) :
    (config.hide_healthy = true →
      (∀ row ∈ (prepare_report_data records config ricon lower).rows,
        row.status ≠ "HEALTHY") ∧
      countGet (prepare_report_data records config ricon lower).status_counts "HEALTHY" = 0) ∧
    (prepare_report_data records config ricon lower).total_records = records.length ∧
    ((∀ r ∈ records,
        (determine_health_status r.jailed r.missed_blocks config).status = "HEALTHY") →
      (config.hide_healthy = true →
        (prepare_report_data records config ricon lower).total_shown = 0 ∧
        (records ≠ [] →
          (prepare_report_data records config ricon lower).filtered_out_healthy = true)) ∧
      (config.hide_healthy = false → config.max_results = 0 →
        (prepare_report_data records config ricon lower).total_shown = records.length)) := by
  have hrow_mem : ∀ row ∈ (prepare_report_data records config ricon lower).rows,
      ∃ r, keepRecord config r = true ∧ row = mkRow config ricon r := by
    intro row hrow
    rw [prepare_report_data_eq] at hrow
    dsimp only at hrow
    have h1 : List.Sublist (capRows config.max_results (shownRows lower config ricon records))
        (shownRows lower config ricon records) := by
      unfold capRows
      by_cases hmr : config.max_results = 0
      · rw [if_pos hmr]
      · rw [if_neg hmr]
        exact List.take_sublist _ _
    have h2 : row ∈ shownRows lower config ricon records := h1.subset hrow
    unfold shownRows at h2
    obtain ⟨r, hr, hrow_eq⟩ := List.mem_map.mp h2
    exact ⟨r, (List.mem_filter.mp hr).2, hrow_eq.symm⟩
  have hnohealthy : config.hide_healthy = true →
      ∀ row ∈ (prepare_report_data records config ricon lower).rows,
        row.status ≠ "HEALTHY" := by
    intro hh row hrow
    obtain ⟨r, hkeep, hrow_eq⟩ := hrow_mem row hrow
    subst hrow_eq
    rw [mkRow_status]
    intro hstat
    have hfalse : keepRecord config r = false :=
      (keepRecord_false_iff config r).mpr ⟨hh, hstat⟩
    rw [hfalse] at hkeep
    exact Bool.noConfusion hkeep
  refine ⟨?_, ?_, ?_⟩
  · intro hh
    refine ⟨hnohealthy hh, ?_⟩
    have hsc : (prepare_report_data records config ricon lower).status_counts =
        countsOf [] (prepare_report_data records config ricon lower).rows := by
      rw [prepare_report_data_eq]
    rw [hsc, countGet_countsOf_ne _ _ (hnohealthy hh)]
    rfl
  · rw [prepare_report_data_eq]
  · intro hall
    constructor
    · intro hh
      have hrows_nil : (prepare_report_data records config ricon lower).rows = [] :=
        (rows_eq_nil_iff records config ricon lower).mpr
          (fun r hr => (keepRecord_false_iff config r).mpr ⟨hh, hall r hr⟩)
      constructor
      · have h1 : (prepare_report_data records config ricon lower).total_shown =
            (prepare_report_data records config ricon lower).rows.length := by
          rw [prepare_report_data_eq]
        rw [h1, hrows_nil]
        rfl
      · intro hne
        have hcap : capRows config.max_results (shownRows lower config ricon records) = [] := by
          have h2 := hrows_nil
          rw [prepare_report_data_eq] at h2
          exact h2
        rw [prepare_report_data_eq]
        dsimp only
        simp only [decide_eq_true_eq]
        exact ⟨hh, List.length_pos.mpr hne, by rw [hcap]; rfl⟩
    · intro hh hmr
      rw [prepare_report_data_eq]
      dsimp only
      unfold capRows
      rw [if_pos hmr]
      unfold shownRows
      rw [List.length_map]
      rw [List.filter_eq_self.mpr (fun a _ => by simp [keepRecord, hh])]
      unfold sortedRecords
      rw [List.length_mergeSort]

/-- Witness for C5: one healthy record hidden (zero shown, flag set) and
shown in full without the filter. -/
theorem C5_witness :
    (prepare_report_data [⟨"a", none, "x", false, 0, none⟩]
      ⟨"", 500, 3, 2, true, 0, none, ""⟩
      (fun s => iconGet STATUS_ICONS_ASCII s "") (fun s => s)).total_shown = 0 ∧
    (prepare_report_data [⟨"a", none, "x", false, 0, none⟩]
      ⟨"", 500, 3, 2, true, 0, none, ""⟩
      (fun s => iconGet STATUS_ICONS_ASCII s "") (fun s => s)).filtered_out_healthy = true ∧
    (prepare_report_data [⟨"a", none, "x", false, 0, none⟩]
      ⟨"", 500, 3, 2, false, 0, none, ""⟩
      (fun s => iconGet STATUS_ICONS_ASCII s "") (fun s => s)).total_shown = 1 :=
  ⟨((C5_hide_healthy _ _ _ _).2.2 (by decide)).1 rfl |>.1,
   ((C5_hide_healthy _ _ _ _).2.2 (by decide)).1 rfl |>.2 (by decide),
   ((C5_hide_healthy _ _ _ _).2.2 (by decide)).2 rfl rfl⟩

/-- C10: a nonzero `max_results` can never empty the row list when some
record survives the hide-healthy filter, because the cap check runs only
after a row is appended; consequently, on a non-empty input,
`filtered_out_healthy` holds exactly when `hide_healthy` is set and every
record classifies `HEALTHY`, whatever `max_results` is. -/
theorem C10_truncation_and_flag (records : List ValidatorRecord) (config : AppConfig)
    (ricon : String → String) (lower : String → String) :
    ((∃ r, r ∈ records ∧ keepRecord config r = true) →
      (prepare_report_data records config ricon lower).rows ≠ []) ∧
    (records ≠ [] →
      ((prepare_report_data records config ricon lower).filtered_out_healthy = true ↔
        (config.hide_healthy = true ∧ ∀ r ∈ records,
          (determine_health_status r.jailed r.missed_blocks config).status =
            "HEALTHY"))) := by
  constructor
  · rintro ⟨r, hr, hkeep⟩ hnil
    rw [rows_eq_nil_iff] at hnil
    have hcontra := hnil r hr
    rw [hkeep] at hcontra
    exact Bool.noConfusion hcontra
  · intro hne
    constructor
    · intro hflag
      rw [prepare_report_data_eq] at hflag
      dsimp only at hflag
      have hprop := of_decide_eq_true hflag
      refine ⟨hprop.1, ?_⟩
      intro r hr
      have hrows : (prepare_report_data records config ricon lower).rows = [] := by
        rw [prepare_report_data_eq]
        dsimp only
        exact List.length_eq_zero.mp hprop.2.2
      have hkf := (rows_eq_nil_iff records config ricon lower).mp hrows r hr
      exact ((keepRecord_false_iff config r).mp hkf).2
    · rintro ⟨hh, hall⟩
      have hrows : (prepare_report_data records config ricon lower).rows = [] :=
        (rows_eq_nil_iff records config ricon lower).mpr
          (fun r hr => (keepRecord_false_iff config r).mpr ⟨hh, hall r hr⟩)
      rw [prepare_report_data_eq] at hrows ⊢
      dsimp only at hrows ⊢
      simp only [decide_eq_true_eq]
      exact ⟨hh, List.length_pos.mpr hne, by rw [hrows]; rfl⟩

/-- Witness for C10: a surviving record keeps the row list non-empty
even under a tight cap, and one hidden healthy record sets the flag. -/
theorem C10_witness :
    (prepare_report_data [⟨"a", none, "x", false, 0, none⟩]
      ⟨"", 500, 3, 2, false, 1, none, ""⟩
      (fun s => iconGet STATUS_ICONS_ASCII s "") (fun s => s)).rows ≠ [] ∧
    (prepare_report_data [⟨"a", none, "x", false, 0, none⟩]
      ⟨"", 500, 3, 2, true, 0, none, ""⟩
      (fun s => iconGet STATUS_ICONS_ASCII s "") (fun s => s)).filtered_out_healthy = true :=
  ⟨(C10_truncation_and_flag _ _ _ _).1 ⟨⟨"a", none, "x", false, 0, none⟩, by decide⟩,
   ((C10_truncation_and_flag _ _ _ _).2 (by decide)).mpr ⟨rfl, by decide⟩⟩
